import Mathlib

/-!
Starboard operator: reconciliation and report store.

A shallow embedding of the Go sources

* `pkg/resources/resources.go`
* `pkg/reports/store.go`
* `pkg/controllers/pod_controller.go`
* `pkg/controllers/job_controller.go`

Conventions of the embedding.

* A Go `map[string]T` is an association list `List (String × T)`; a `range`
  loop over the map visits the entries in list order.  Go leaves that order
  unspecified, so statements about a map argument are quantified over every
  list, hence over every visiting order.  The findings map that
  `processCompleteScanJob` builds is visited by `Store.Write` in the order the
  reconciler's `Range` gives, any rearrangement of the map.
* A Go function returning `(T, error)` returns a `Res T`: `ok`, `err` (a
  non-nil `error`) or `panic` (a run-time panic such as an index out of
  range, which unwinds through every caller).
* The controller-runtime client is a value of type `Client` (which calls fail
  in transport) acting on a `Cluster` (the stored objects together with the
  sequence of client calls made so far).
* Logging has no effect on the objects and is not embedded.
-/

namespace Starboard

/-! ## Strings and maps -/

/-- Pieces of a character sequence between occurrences of the separator. -/
def splitChars (sep : Char) : List Char → List (List Char)
  | [] => [[]]
  | c :: cs =>
    if c = sep then [] :: splitChars sep cs
    else
      match splitChars sep cs with
      | [] => [[c]]
      | h :: t => (c :: h) :: t

/-- Pieces joined again with the separator between them. -/
def joinWith (sep : Char) : List (List Char) → List Char
  | [] => []
  | [p] => p
  | p :: q :: rest => p ++ sep :: joinWith sep (q :: rest)

/-- Go `strings.Split(s, sep)` for a one-character separator. -/
def Split (s : String) (sep : Char) : List String :=
  (splitChars sep s.data).map String.mk

/-- Go `strings.ToLower`, on ASCII letters.  The only argument it receives in
`Store.Write` is a workload kind accepted by `getRuntimeObjectFor`, and those
are ASCII. -/
def ToLower (s : String) : String :=
  String.mk (s.data.map Char.toLower)

/-- Go `m[k]` with the comma-ok form: the value stored under `k`, if any. -/
def mapGet {β : Type} (m : List (String × β)) (k : String) : Option β :=
  match m with
  | [] => none
  | (k', v) :: rest => if k' = k then some v else mapGet rest k

/-- Go `m[k] = v`: overwrite the entry of `k`, or add one. -/
def mapSet {β : Type} (m : List (String × β)) (k : String) (v : β) : List (String × β) :=
  match m with
  | [] => [(k, v)]
  | (k', v') :: rest => if k' = k then (k, v) :: rest else (k', v') :: mapSet rest k v

/-- Go `m[k]` on a `map[string]string`: the empty string when `k` is absent. -/
def mapIndex (m : List (String × String)) (k : String) : String :=
  (mapGet m k).getD ""

/-- Keys of a map. -/
def mapKeys {β : Type} (m : List (String × β)) : List String :=
  m.map Prod.fst

/-! ## Errors and results -/

deriving instance DecidableEq for Except

/-- Go `error` values met in these files. -/
inductive Err where
  | alreadyExists
  | notFound
  | transport (msg : String)
  | msg (text : String)
  | wrap (context : String) (cause : Err)
  deriving DecidableEq, Repr

/-- Outcome of a Go call: a value with a nil error, a non-nil error, or a
run-time panic. -/
inductive Res (α : Type) where
  | ok (a : α)
  | err (e : Err)
  | panic (msg : String)
  deriving DecidableEq, Repr

/-! ## Kubernetes objects -/

/-- Label and annotation maps. -/
abbrev LabelSet := List (String × String)

/-- Map `kube.ContainerImages`: container name to image string. -/
abbrev ContainerImages := List (String × String)

/-- Struct `kube.Object`: the workload a scan is attributed to. -/
structure Object where
  Kind : String
  Name : String
  Namespace : String
  deriving DecidableEq, Repr

/-- Payload of a report. -/
structure VulnerabilityScanResult where
  Vulnerabilities : List String
  deriving DecidableEq, Repr

structure ContainerStatus where
  Name : String
  ImageID : String
  deriving DecidableEq, Repr

structure PodStatus where
  Conditions : List String
  ContainerStatuses : List ContainerStatus
  deriving DecidableEq, Repr

/-- The fields of `corev1.Pod` the controllers read.  `Controller` is the
result of `metav1.GetControllerOf`: kind and name of the controlling owner. -/
structure Pod where
  Namespace : String
  Name : String
  Labels : LabelSet
  DeletionTimestamp : Option Nat
  Controller : Option (String × String)
  Containers : List String
  Status : PodStatus
  deriving DecidableEq, Repr

/-- The fields of `batchv1.Job` the controllers read.  `Selector` is the pointer
`Spec.Selector`, `none` when nil, holding its `MatchLabels`; `Conditions` are
the types of `Status.Conditions`. -/
structure Job where
  Namespace : String
  Name : String
  Labels : LabelSet
  Annotations : LabelSet
  Selector : Option LabelSet
  Conditions : List String
  deriving DecidableEq, Repr

structure VulnerabilityReport where
  Name : String
  Namespace : String
  Labels : LabelSet
  Annotations : LabelSet
  OwnerReferences : List Object
  Report : VulnerabilityScanResult
  deriving DecidableEq, Repr

/-! Constants of `github.com/aquasecurity/starboard/pkg/kube`, `batchv1` and `corev1`. -/

def LabelResourceKind : String := "starboard.resource.kind"
def LabelResourceName : String := "starboard.resource.name"
def LabelResourceNamespace : String := "starboard.resource.namespace"
def LabelContainerName : String := "starboard.container.name"
def AnnotationContainerImages : String := "starboard.container-images"
def AnnotationImageHash : String := "starboard.container.imagehash"

def KindPod : String := "Pod"
def KindReplicaSet : String := "ReplicaSet"
def KindReplicationController : String := "ReplicationController"
def KindDeployment : String := "Deployment"
def KindStatefulSet : String := "StatefulSet"
def KindDaemonSet : String := "DaemonSet"
def KindCronJob : String := "CronJob"
def KindJob : String := "Job"

def JobComplete : String := "Complete"
def JobFailed : String := "Failed"
def ContainersReady : String := "ContainersReady"

/-! ## `pkg/resources/resources.go` -/

/-- Last element of a slice, `slice[len(slice)-1]`; the default stands for the
empty slice, which `strings.Split` never returns. -/
def lastElem {α : Type} (default : α) : List α → α
  | [] => default
  | [x] => x
  | _ :: y :: rest => lastElem default (y :: rest)

/-- Last element of the pieces of a split. -/
def lastPiece (pieces : List String) : String :=
  lastElem "" pieces

/-- Loop body of `GetContainerImagesFromPodStatus`, folded over the statuses. -/
def GetContainerImagesLoop (images : ContainerImages) : List ContainerStatus → ContainerImages
  | [] => images
  | container :: rest =>
    let imageIdSlice := Split container.ImageID ':'
    GetContainerImagesLoop (mapSet images container.Name (lastPiece imageIdSlice)) rest

/-- Function `GetContainerImagesFromPodStatus`. -/
def GetContainerImagesFromPodStatus (status : PodStatus) : ContainerImages :=
  GetContainerImagesLoop [] status.ContainerStatuses

/-- Function `HasContainersReadyCondition`. -/
def HasContainersReadyCondition (pod : Pod) : Bool :=
  pod.Status.Conditions.any (fun conditionType => decide (conditionType = ContainersReady))

/-- Function `GetImmediateOwnerReference`. -/
def GetImmediateOwnerReference (pod : Pod) : Object :=
  match pod.Controller with
  | some (kind, name) => { Namespace := pod.Namespace, Kind := kind, Name := name }
  | none => { Namespace := pod.Namespace, Kind := KindPod, Name := pod.Name }

/-- Function `GetContainerImagesFromJob`.  `fromJSON` is the method
`kube.ContainerImages.FromJSON` of the starboard library. -/
def GetContainerImagesFromJob (fromJSON : String → Except Err ContainerImages) (job : Job) :
    Res ContainerImages :=
  match mapGet job.Annotations AnnotationContainerImages with
  | none => .err (.msg "job does not have required annotation: starboard.container-images")
  | some containerImagesAsJSON =>
    match fromJSON containerImagesAsJSON with
    | .error e => .err (.wrap "parsing job annotation: starboard.container-images" e)
    | .ok containerImages => .ok containerImages

/-! ## The resource store and its client -/

/-- One call on the controller-runtime client. -/
inductive Call where
  | getPod (ns name : String)
  | getJob (ns name : String)
  | getWorkload (workload : Object)
  | listJobs (selector : LabelSet) (ns : String)
  | listPods (selector : LabelSet)
  | listReports (ns : String)
  | createJob (job : Job)
  | createReport (report : VulnerabilityReport)
  | deleteJob (ns name : String)
  deriving DecidableEq, Repr

/-- The stored objects, and the client calls made so far (oldest first).
`workloads` holds the live objects of the kinds other than Pod and Job. -/
structure Cluster where
  pods : List Pod
  jobs : List Job
  reports : List VulnerabilityReport
  workloads : List Object
  calls : List Call
  deriving DecidableEq, Repr

/-- Transport behaviour of `client.Client`: for each kind of call, the error
it fails with, if it fails before reaching the store. -/
structure Client where
  getPodErr : Option Err
  getJobErr : Option Err
  getWorkloadErr : Option Err
  listJobsErr : Option Err
  listPodsErr : Option Err
  listReportsErr : Option Err
  createJobErr : Option Err
  createReportErr : Option Err
  deleteJobErr : Option Err
  deriving DecidableEq, Repr

/-- A client none of whose calls fails in transport. -/
def Client.reliable : Client :=
  { getPodErr := none, getJobErr := none, getWorkloadErr := none, listJobsErr := none,
    listPodsErr := none, listReportsErr := none, createJobErr := none,
    createReportErr := none, deleteJobErr := none }

/-- Append a call to the record of calls. -/
def Cluster.record (c : Cluster) (call : Call) : Cluster :=
  { c with calls := c.calls ++ [call] }

/-- Selector `client.MatchingLabels`: every selector entry is a label of the object. -/
def matchesLabels (selector : LabelSet) (labels : LabelSet) : Bool :=
  selector.all (fun kv => decide (mapGet labels kv.1 = some kv.2))

/-- Call `Get` on a Pod key. -/
def Client.GetPod (k : Client) (c : Cluster) (ns name : String) : Cluster × Except Err Pod :=
  let c1 := c.record (.getPod ns name)
  match k.getPodErr with
  | some e => (c1, .error e)
  | none =>
    match c.pods.find? (fun p => decide (p.Namespace = ns ∧ p.Name = name)) with
    | some p => (c1, .ok p)
    | none => (c1, .error .notFound)

/-- Call `Get` on a Job key. -/
def Client.GetJob (k : Client) (c : Cluster) (ns name : String) : Cluster × Except Err Job :=
  let c1 := c.record (.getJob ns name)
  match k.getJobErr with
  | some e => (c1, .error e)
  | none =>
    match c.jobs.find? (fun j => decide (j.Namespace = ns ∧ j.Name = name)) with
    | some j => (c1, .ok j)
    | none => (c1, .error .notFound)

/-- Whether a live object of the workload's kind, name and namespace is stored. -/
def Cluster.hasWorkload (c : Cluster) (workload : Object) : Bool :=
  if workload.Kind = KindPod then
    c.pods.any (fun p => decide (p.Namespace = workload.Namespace ∧ p.Name = workload.Name))
  else if workload.Kind = KindJob then
    c.jobs.any (fun j => decide (j.Namespace = workload.Namespace ∧ j.Name = workload.Name))
  else
    c.workloads.any (fun w => decide (w = workload))

/-- Call `Get` on the typed object of a workload. -/
def Client.GetWorkload (k : Client) (c : Cluster) (workload : Object) : Cluster × Except Err Object :=
  let c1 := c.record (.getWorkload workload)
  match k.getWorkloadErr with
  | some e => (c1, .error e)
  | none => if c.hasWorkload workload then (c1, .ok workload) else (c1, .error .notFound)

/-- Call `List` on Jobs, with `MatchingLabels` and `InNamespace`. -/
def Client.ListJobs (k : Client) (c : Cluster) (selector : LabelSet) (ns : String) :
    Cluster × Except Err (List Job) :=
  let c1 := c.record (.listJobs selector ns)
  match k.listJobsErr with
  | some e => (c1, .error e)
  | none => (c1, .ok (c.jobs.filter (fun j => decide (j.Namespace = ns) && matchesLabels selector j.Labels)))

/-- Call `List` on Pods of every namespace, with `MatchingLabels`. -/
def Client.ListPods (k : Client) (c : Cluster) (selector : LabelSet) :
    Cluster × Except Err (List Pod) :=
  let c1 := c.record (.listPods selector)
  match k.listPodsErr with
  | some e => (c1, .error e)
  | none => (c1, .ok (c.pods.filter (fun p => matchesLabels selector p.Labels)))

/-- Call `List` on VulnerabilityReports, with empty `MatchingLabels` and `InNamespace`. -/
def Client.ListReports (k : Client) (c : Cluster) (ns : String) :
    Cluster × Except Err (List VulnerabilityReport) :=
  let c1 := c.record (.listReports ns)
  match k.listReportsErr with
  | some e => (c1, .error e)
  | none => (c1, .ok (c.reports.filter (fun r => decide (r.Namespace = ns))))

/-- Call `Create` on a Job: a Job of the same namespace and name is a conflict. -/
def Client.CreateJob (k : Client) (c : Cluster) (job : Job) : Cluster × Except Err Unit :=
  let c1 := c.record (.createJob job)
  match k.createJobErr with
  | some e => (c1, .error e)
  | none =>
    if c.jobs.any (fun j => decide (j.Namespace = job.Namespace ∧ j.Name = job.Name)) then
      (c1, .error .alreadyExists)
    else ({ c1 with jobs := c1.jobs ++ [job] }, .ok ())

/-- Call `Create` on a VulnerabilityReport: a report of the same namespace and
name is a conflict. -/
def Client.CreateReport (k : Client) (c : Cluster) (report : VulnerabilityReport) :
    Cluster × Except Err Unit :=
  let c1 := c.record (.createReport report)
  match k.createReportErr with
  | some e => (c1, .error e)
  | none =>
    if c.reports.any (fun r => decide (r.Namespace = report.Namespace ∧ r.Name = report.Name)) then
      (c1, .error .alreadyExists)
    else ({ c1 with reports := c1.reports ++ [report] }, .ok ())

/-- Call `Delete` on a Job, with background propagation. -/
def Client.DeleteJob (k : Client) (c : Cluster) (job : Job) : Cluster × Except Err Unit :=
  let c1 := c.record (.deleteJob job.Namespace job.Name)
  match k.deleteJobErr with
  | some e => (c1, .error e)
  | none =>
    if c.jobs.any (fun j => decide (j.Namespace = job.Namespace ∧ j.Name = job.Name)) then
      let remaining := c1.jobs.filter
        (fun j => !(decide (j.Namespace = job.Namespace ∧ j.Name = job.Name)))
      ({ c1 with jobs := remaining }, .ok ())
    else (c1, .error .notFound)

/-- Lift a client error result into `Res`. -/
def Res.ofExcept {α : Type} : Except Err α → Res α
  | .ok a => .ok a
  | .error e => .err e

/-! ## `pkg/reports/store.go` -/

/-- Struct `Store`.  The `scheme` lists the kinds registered in the
`runtime.Scheme`. -/
structure Store where
  client : Client
  scheme : List String
  deriving DecidableEq, Repr

/-- Function `controllerutil.SetOwnerReference`: fails when the owner's kind is
not registered in the scheme, and otherwise records the owner on the report. -/
def SetOwnerReference (scheme : List String) (owner : Object) (report : VulnerabilityReport) :
    Except Err VulnerabilityReport :=
  if scheme.contains owner.Kind then
    .ok { report with
          OwnerReferences := report.OwnerReferences.filter (fun o => !(decide (o = owner))) ++ [owner] }
  else .error (.msg "no kind is registered for the owner type")

/-- Method `Store.getRuntimeObjectFor`. -/
def Store.getRuntimeObjectFor (s : Store) (c : Cluster) (workload : Object) : Cluster × Res Object :=
  if workload.Kind = KindPod ∨ workload.Kind = KindReplicaSet
      ∨ workload.Kind = KindReplicationController ∨ workload.Kind = KindDeployment
      ∨ workload.Kind = KindStatefulSet ∨ workload.Kind = KindDaemonSet
      ∨ workload.Kind = KindCronJob ∨ workload.Kind = KindJob then
    match s.client.GetWorkload c workload with
    | (c1, .error e) => (c1, .err e)
    | (c1, .ok obj) => (c1, .ok obj)
  else (c, .err (.msg ("unknown workload kind: " ++ workload.Kind)))

/-- Element 1 of `strings.Split(image, " ")`; indexing panics when there is none. -/
def imageHashField (image : String) : Option String :=
  (Split image ' ')[1]?

/-- The report `Store.Write` builds for one container, before the owner
reference is set. -/
def buildReport (workload : Object) (containerName : String) (report : VulnerabilityScanResult)
    (hash : String) : VulnerabilityReport :=
  { Name := ToLower workload.Kind ++ "-" ++ workload.Name ++ "-" ++ containerName
    Namespace := workload.Namespace
    Labels := [(LabelResourceKind, workload.Kind), (LabelResourceName, workload.Name),
               (LabelResourceNamespace, workload.Namespace), (LabelContainerName, containerName)]
    Annotations := [(AnnotationImageHash, hash)]
    OwnerReferences := []
    Report := report }

/-- The `for containerName, report := range reports` loop of `Store.Write`. -/
def Store.writeLoop (s : Store) (workload owner : Object) (containerImages : ContainerImages) :
    Cluster → List (String × VulnerabilityScanResult) → Cluster × Res Unit
  | c, [] => (c, .ok ())
  | c, (containerName, report) :: rest =>
    match imageHashField (mapIndex containerImages containerName) with
    | none => (c, .panic "index out of range [1] with length 1")
    | some hash =>
      match SetOwnerReference s.scheme owner (buildReport workload containerName report hash) with
      | .error e => (c, .err e)
      | .ok vulnerabilityReport =>
        match s.client.CreateReport c vulnerabilityReport with
        | (c1, .error e) => (c1, .err e)
        | (c1, .ok ()) => Store.writeLoop s workload owner containerImages c1 rest

/-- Method `Store.Write`. -/
def Store.Write (s : Store) (c : Cluster) (workload : Object)
    (reports : List (String × VulnerabilityScanResult)) (containerImages : ContainerImages) :
    Cluster × Res Unit :=
  match s.getRuntimeObjectFor c workload with
  | (c1, .err e) => (c1, .err e)
  | (c1, .panic m) => (c1, .panic m)
  | (c1, .ok owner) => s.writeLoop workload owner containerImages c1 reports

/-- The `for _, item := range vulnerabilityList.Items` loop of `Store.Read`. -/
def Store.readLoop (containerImageHash : String) :
    List VulnerabilityReport → Res (Option VulnerabilityScanResult)
  | [] => .ok none
  | item :: rest =>
    match mapGet item.Annotations AnnotationImageHash with
    | none => Store.readLoop containerImageHash rest
    | some containerHash =>
      match imageHashField containerImageHash with
      | none => .panic "index out of range [1] with length 1"
      | some hash =>
        if containerHash = hash then .ok (some item.Report)
        else Store.readLoop containerImageHash rest

/-- Method `Store.Read`. -/
def Store.Read (s : Store) (c : Cluster) (workload : Object) (containerImageHash : String) :
    Cluster × Res (Option VulnerabilityScanResult) :=
  match s.client.ListReports c workload.Namespace with
  | (c1, .error e) => (c1, .err e)
  | (c1, .ok items) => (c1, Store.readLoop containerImageHash items)

/-- Method `Store.HasVulnerabilityReports`. -/
def Store.HasVulnerabilityReports (s : Store) (owner : Object) :
    Cluster → ContainerImages → Cluster × Res Bool
  | c, [] => (c, .ok true)
  | c, (_, containerImageHash) :: rest =>
    match s.Read c owner containerImageHash with
    | (c1, .ok (some _)) => Store.HasVulnerabilityReports s owner c1 rest
    | (c1, .ok none) => (c1, .ok false)
    | (c1, .err e) => (c1, .err e)
    | (c1, .panic m) => (c1, .panic m)

/-- Interface `StoreInterface`, as the controllers hold it. -/
structure StoreInterface where
  Write : Cluster → Object → List (String × VulnerabilityScanResult) → ContainerImages →
    Cluster × Res Unit
  Read : Cluster → Object → String → Cluster × Res (Option VulnerabilityScanResult)
  HasVulnerabilityReports : Cluster → Object → ContainerImages → Cluster × Res Bool

/-- The `Store` seen through `StoreInterface`. -/
def Store.toInterface (s : Store) : StoreInterface :=
  { Write := fun c workload reports containerImages => s.Write c workload reports containerImages
    Read := fun c workload hash => s.Read c workload hash
    HasVulnerabilityReports := fun c owner containerImages =>
      s.HasVulnerabilityReports owner c containerImages }

/-! ## Collaborators of the controllers -/

/-- Modelled from the spec: type `etc.InstallMode` of package `pkg/etc`, which
is not among the sources; an install mode is a string. -/
abbrev InstallMode := String

/-- Modelled from the spec: constant `etc.InstallModeOwnNamespace`. -/
def InstallModeOwnNamespace : InstallMode := "OwnNamespace"

/-- Modelled from the spec: constant `etc.InstallModeSingleNamespace`, the
single-namespace install mode. -/
def InstallModeSingleNamespace : InstallMode := "SingleNamespace"

/-- Modelled from the spec: constant `etc.InstallModeMultiNamespace`, the
multi-namespace install mode. -/
def InstallModeMultiNamespace : InstallMode := "MultiNamespace"

/-- Modelled from the spec: constant `etc.InstallModeAllNamespaces`. -/
def InstallModeAllNamespaces : InstallMode := "AllNamespaces"

/-- Struct `etc.Operator` of package `pkg/etc`: the configuration fields the
controllers read, and the results of its methods `GetInstallMode` and
`GetTargetNamespaces`, taken as parameters. -/
structure Operator where
  Namespace : String
  ServiceAccount : String
  ScanJobTimeout : Nat
  GetInstallMode : Except Err InstallMode
  GetTargetNamespaces : List String

/-- Struct `scanner.Options`. -/
structure Options where
  Namespace : String
  ServiceAccountName : String
  ScanJobTimeout : Nat
  deriving DecidableEq, Repr

/-- Contents of a log stream. -/
abbrev LogStream := String

/-- Interface `scanner.VulnerabilityScanner` of package `pkg/scanner`, its two
methods taken as parameters. -/
structure VulnerabilityScanner where
  NewScanJob : Object → PodStatus → Options → Except Err Job
  ParseVulnerabilityReport : String → LogStream → Except Err VulnerabilityScanResult

/-- Type `types.NamespacedName`. -/
structure NamespacedName where
  Namespace : String
  Name : String
  deriving DecidableEq, Repr

/-! ## `pkg/controllers/pod_controller.go` -/

/-- Struct `PodReconciler`. -/
structure PodReconciler where
  Config : Operator
  Client : Client
  Store : StoreInterface
  Scanner : VulnerabilityScanner

/-- Function `SliceContainsString`: the loop runs over the whole slice. -/
def SliceContainsString (slice : List String) (value : String) : Bool :=
  slice.foldl (fun exists_ targetNamespace => if targetNamespace = value then true else exists_) false

/-- Method `PodReconciler.IgnorePodInOperatorNamespace`. -/
def PodReconciler.IgnorePodInOperatorNamespace (r : PodReconciler) (installMode : InstallMode)
    (pod : NamespacedName) : Bool :=
  if installMode = InstallModeSingleNamespace ∧ pod.Namespace = r.Config.Namespace then true
  else if installMode = InstallModeMultiNamespace ∧ pod.Namespace = r.Config.Namespace
      ∧ ¬ (SliceContainsString r.Config.GetTargetNamespaces r.Config.Namespace = true) then true
  else false

/-- Function `IsPodManagedByStarboardOperator`. -/
def IsPodManagedByStarboardOperator (pod : Pod) : Bool :=
  match mapGet pod.Labels "app.kubernetes.io/managed-by" with
  | some managedBy => decide (managedBy = "starboard-operator")
  | none => false

/-- The label selector `ensureScanJob` lists scan Jobs with. -/
def scanJobSelector (owner : Object) (pod : Pod) : LabelSet :=
  [(LabelResourceNamespace, pod.Namespace), (LabelResourceKind, owner.Kind),
   (LabelResourceName, owner.Name)]

/-- Method `PodReconciler.ensureScanJob`. -/
def PodReconciler.ensureScanJob (r : PodReconciler) (c : Cluster) (owner : Object) (pod : Pod) :
    Cluster × Res Unit :=
  match r.Client.ListJobs c (scanJobSelector owner pod) r.Config.Namespace with
  | (c1, .error e) => (c1, .err (.wrap "listing jos" e))
  | (c1, .ok jobList) =>
    if jobList.length > 0 then (c1, .ok ())
    else
      match r.Scanner.NewScanJob owner pod.Status
          { Namespace := r.Config.Namespace, ServiceAccountName := r.Config.ServiceAccount,
            ScanJobTimeout := r.Config.ScanJobTimeout } with
      | .error e => (c1, .err (.wrap "constructing scan job" e))
      | .ok scanJob =>
        match r.Client.CreateJob c1 scanJob with
        | (c2, .error e) => (c2, .err e)
        | (c2, .ok ()) => (c2, .ok ())

/-- Method `PodReconciler.Reconcile`. -/
def PodReconciler.Reconcile (r : PodReconciler) (c : Cluster) (req : NamespacedName) :
    Cluster × Res Unit :=
  match r.Config.GetInstallMode with
  | .error e => (c, .err (.wrap "getting install mode" e))
  | .ok installMode =>
    if r.IgnorePodInOperatorNamespace installMode req then (c, .ok ())
    else
      match r.Client.GetPod c req.Namespace req.Name with
      | (c1, .error e) =>
        if e = .notFound then (c1, .ok ()) else (c1, .err (.wrap "getting pod from cache" e))
      | (c1, .ok pod) =>
        if IsPodManagedByStarboardOperator pod then (c1, .ok ())
        else if pod.DeletionTimestamp.isSome then (c1, .ok ())
        else if !(HasContainersReadyCondition pod) then (c1, .ok ())
        else
          let owner := GetImmediateOwnerReference pod
          match r.Store.HasVulnerabilityReports c1 owner
              (GetContainerImagesFromPodStatus pod.Status) with
          | (c2, .err e) => (c2, .err (.wrap "getting vulnerability reports" e))
          | (c2, .panic m) => (c2, .panic m)
          | (c2, .ok hasVulnerabilityReports) =>
            if hasVulnerabilityReports then (c2, .ok ())
            else
              match r.ensureScanJob c2 owner pod with
              | (c3, .err e) => (c3, .err (.wrap "ensuring scan job" e))
              | (c3, .panic m) => (c3, .panic m)
              | (c3, .ok ()) => (c3, .ok ())

/-! ## `pkg/controllers/job_controller.go` -/

/-- The order in which a Go `range` visits the entries of a findings map: some
rearrangement of them, which Go leaves unspecified. -/
structure RangeOrder where
  visit : List (String × VulnerabilityScanResult) → List (String × VulnerabilityScanResult)
  rearranges : ∀ m, (visit m).Perm m

/-- Struct `JobReconciler`.  `LogsReader` is the method `GetLogsForPod` of
`logs.Reader`, by pod namespace, pod name and container name.  The next two
fields are the functions of the starboard library that `processCompleteScanJob`
calls: `kube.ObjectFromLabelsSet` and `kube.ContainerImages.FromJSON`.  The
last is the order in which `Store.Write` ranges over the findings map that
`processCompleteScanJob` hands to it. -/
structure JobReconciler where
  Config : Operator
  Client : Client
  LogsReader : String → String → String → Except Err LogStream
  Scanner : VulnerabilityScanner
  Store : StoreInterface
  ObjectFromLabelsSet : LabelSet → Except Err Object
  FromJSON : String → Except Err ContainerImages
  Range : RangeOrder

/-- Method `JobReconciler.GetPodControlledBy`.  Reading `MatchLabels` through a
nil `Spec.Selector` is a nil-pointer dereference. -/
def JobReconciler.GetPodControlledBy (r : JobReconciler) (c : Cluster) (job : Job) :
    Cluster × Res Pod :=
  match job.Selector with
  | none => (c, .panic "invalid memory address or nil pointer dereference")
  | some matchLabels =>
    match mapGet matchLabels "controller-uid" with
    | none =>
      (c, .err (.msg ("controller-uid not found for job " ++ job.Namespace ++ "/" ++ job.Name)))
    | some controllerUID =>
      match r.Client.ListPods c [("controller-uid", controllerUID)] with
      | (c1, .error e) =>
        (c1, .err (.wrap ("listing pods controlled by job " ++ job.Namespace ++ "/" ++ job.Name) e))
      | (c1, .ok podList) =>
        match podList with
        | [pod] => (c1, .ok pod)
        | _ => (c1, .err (.msg ("expected 1 Pod, but got " ++ toString podList.length)))

/-- The `for _, container := range pod.Spec.Containers` loop of
`processCompleteScanJob`: the findings of every container, or `none` as soon as
reading the logs or parsing the findings of one container fails. -/
def JobReconciler.harvest (r : JobReconciler) (pod : Pod) (containerImages : ContainerImages) :
    List (String × VulnerabilityScanResult) → List String →
    Option (List (String × VulnerabilityScanResult))
  | vulnerabilityReports, [] => some vulnerabilityReports
  | vulnerabilityReports, container :: rest =>
    match r.LogsReader pod.Namespace pod.Name container with
    | .error _ => none
    | .ok logsReader =>
      match r.Scanner.ParseVulnerabilityReport
          ((Split (mapIndex containerImages container) ' ').headD "") logsReader with
      | .error _ => none
      | .ok report =>
        JobReconciler.harvest r pod containerImages (mapSet vulnerabilityReports container report) rest

/-- Lift the result of the client's `Delete` to the return value of a handler. -/
def deleteResult (out : Cluster × Except Err Unit) : Cluster × Res Unit :=
  (out.1, Res.ofExcept out.2)

/-- Method `JobReconciler.processCompleteScanJob`.  `Store.Write` ranges over
the findings map it is given, so it receives the map in the order `r.Range`
visits it. -/
def JobReconciler.processCompleteScanJob (r : JobReconciler) (c : Cluster) (scanJob : Job) :
    Cluster × Res Unit :=
  match r.ObjectFromLabelsSet scanJob.Labels with
  | .error e => (c, .err (.wrap "getting workload from scan job labels set" e))
  | .ok workload =>
    match GetContainerImagesFromJob r.FromJSON scanJob with
    | .err e => (c, .err (.wrap "getting container images" e))
    | .panic m => (c, .panic m)
    | .ok containerImages =>
      match r.Store.HasVulnerabilityReports c workload containerImages with
      | (c1, .err e) => (c1, .err e)
      | (c1, .panic m) => (c1, .panic m)
      | (c1, .ok hasVulnerabilityReports) =>
        if hasVulnerabilityReports then deleteResult (r.Client.DeleteJob c1 scanJob)
        else
          match r.GetPodControlledBy c1 scanJob with
          | (c2, .err _) => deleteResult (r.Client.DeleteJob c2 scanJob)
          | (c2, .panic m) => (c2, .panic m)
          | (c2, .ok pod) =>
            match r.harvest pod containerImages [] pod.Containers with
            | none => deleteResult (r.Client.DeleteJob c2 scanJob)
            | some vulnerabilityReports =>
              match r.Store.Write c2 workload (r.Range.visit vulnerabilityReports)
                  containerImages with
              | (c3, .panic m) => (c3, .panic m)
              | (c3, _) => deleteResult (r.Client.DeleteJob c3 scanJob)

/-- Method `JobReconciler.processFailedScanJob`.  The loop over the terminated
container statuses only logs. -/
def JobReconciler.processFailedScanJob (r : JobReconciler) (c : Cluster) (scanJob : Job) :
    Cluster × Res Unit :=
  match r.GetPodControlledBy c scanJob with
  | (c1, .err e) => (c1, .err e)
  | (c1, .panic m) => (c1, .panic m)
  | (c1, .ok _) => deleteResult (r.Client.DeleteJob c1 scanJob)

/-- Method `JobReconciler.Reconcile`. -/
def JobReconciler.Reconcile (r : JobReconciler) (c : Cluster) (req : NamespacedName) :
    Cluster × Res Unit :=
  if req.Namespace ≠ r.Config.Namespace then (c, .ok ())
  else
    match r.Client.GetJob c req.Namespace req.Name with
    | (c1, .error e) =>
      if e = .notFound then (c1, .ok ()) else (c1, .err (.wrap "getting job from cache" e))
    | (c1, .ok job) =>
      match job.Conditions with
      | [] => (c1, .ok ())
      | jobCondition :: _ =>
        if jobCondition = JobComplete then r.processCompleteScanJob c1 job
        else if jobCondition = JobFailed then r.processFailedScanJob c1 job
        else (c1, .ok ())

/-! ## Properties stated about the code -/

/-- The string `v` is what follows the last `':'` of `imageID`, or the whole
of `imageID` when it holds no `':'`. -/
def AfterLastColon (imageID v : String) : Prop :=
  (':' ∉ imageID.data ∧ v = imageID) ∨ ∃ pre, imageID.data = pre ++ ':' :: v.data

/-- A report of the namespace annotated with the hash is stored. -/
def Cluster.hasReportWithHash (c : Cluster) (ns hash : String) : Prop :=
  ∃ report ∈ c.reports,
    report.Namespace = ns ∧ mapGet report.Annotations AnnotationImageHash = some hash

/-- The objects other than reports are the same in two clusters. -/
def Cluster.sameWorkloads (c c' : Cluster) : Prop :=
  c'.pods = c.pods ∧ c'.jobs = c.jobs ∧ c'.workloads = c.workloads

/-- The report `Store.Write` submits for one container. -/
def reportFor (workload owner : Object) (containerName : String)
    (report : VulnerabilityScanResult) (hash : String) : VulnerabilityReport :=
  { buildReport workload containerName report hash with OwnerReferences := [owner] }

/-- The labels that attribute a scan Job to an owner. -/
def ownerSelector (owner : Object) : LabelSet :=
  [(LabelResourceNamespace, owner.Namespace), (LabelResourceKind, owner.Kind),
   (LabelResourceName, owner.Name)]

/-- The scan Jobs of a namespace that carry the owner's labels. -/
def Cluster.scanJobsFor (c : Cluster) (ns : String) (owner : Object) : List Job :=
  c.jobs.filter (fun j => decide (j.Namespace = ns) && matchesLabels (ownerSelector owner) j.Labels)

/-- A Job of the given namespace and name is stored. -/
def Cluster.hasJob (c : Cluster) (ns name : String) : Prop :=
  ∃ j ∈ c.jobs, j.Namespace = ns ∧ j.Name = name

/-- The options `ensureScanJob` passes to the scanner. -/
def PodReconciler.scanOptions (r : PodReconciler) : Options :=
  { Namespace := r.Config.Namespace, ServiceAccountName := r.Config.ServiceAccount,
    ScanJobTimeout := r.Config.ScanJobTimeout }

/-- Calls of `ensureScanJob` one after the other, `n` of them, for the same
owner and pod: the cluster left by the last, and the results in order. -/
def PodReconciler.ensureScanJobTimes (r : PodReconciler) (owner : Object) (pod : Pod) :
    Nat → Cluster → Cluster × List (Res Unit)
  | 0, c => (c, [])
  | n + 1, c =>
    let first := r.ensureScanJob c owner pod
    let others := PodReconciler.ensureScanJobTimes r owner pod n first.1
    (others.1, first.2 :: others.2)

/-- Reading the logs or parsing the findings of the container fails. -/
def JobReconciler.containerFails (r : JobReconciler) (pod : Pod) (containerImages : ContainerImages)
    (container : String) : Prop :=
  (∃ e, r.LogsReader pod.Namespace pod.Name container = .error e) ∨
  (∃ logs e, r.LogsReader pod.Namespace pod.Name container = .ok logs ∧
    r.Scanner.ParseVulnerabilityReport
      ((Split (mapIndex containerImages container) ' ').headD "") logs = .error e)

/-! ## Example objects -/

/-- A store over a reliable client whose scheme knows the ReplicaSet kind. -/
def demoStore : Store := { client := Client.reliable, scheme := [KindReplicaSet] }

/-- The ReplicaSet `ns/app-rs`. -/
def demoOwner : Object := { Kind := "ReplicaSet", Name := "app-rs", Namespace := "ns" }

/-- A cluster holding the ReplicaSet `ns/app-rs` and nothing else. -/
def demoCluster : Cluster :=
  { pods := [], jobs := [], reports := [], workloads := [demoOwner], calls := [] }

/-- A report of namespace `ns` annotated with the image hash `aaa`. -/
def demoReport : VulnerabilityReport :=
  { Name := "replicaset-app-rs-web", Namespace := "ns", Labels := [],
    Annotations := [(AnnotationImageHash, "aaa")], OwnerReferences := [],
    Report := { Vulnerabilities := [] } }

/-- The cluster `demoCluster` with the report `demoReport` stored. -/
def demoClusterWithReport : Cluster :=
  { demoCluster with reports := [demoReport] }

/-- An operator configured for the single namespace `ns`, running in
`starboard-operator`. -/
def demoOperator : Operator :=
  { Namespace := "starboard-operator", ServiceAccount := "starboard-operator",
    ScanJobTimeout := 300, GetInstallMode := .ok InstallModeSingleNamespace,
    GetTargetNamespaces := ["ns"] }

/-- A scanner that names the scan Job after the owner, labels it with the
owner, and parses a non-empty log into one finding. -/
def demoScanner : VulnerabilityScanner :=
  { NewScanJob := fun owner _ options =>
      .ok { Namespace := options.Namespace, Name := "scan-" ++ owner.Name,
            Labels := ownerSelector owner ++ [("app.kubernetes.io/managed-by", "starboard-operator")],
            Annotations := [(AnnotationContainerImages, "web=nginx aaa")],
            Selector := some [("controller-uid", "uid-1")], Conditions := [] }
    ParseVulnerabilityReport := fun _ logs =>
      if logs = "" then .error (.msg "unexpected end of JSON input")
      else .ok { Vulnerabilities := [logs] } }

/-- A pod reconciler over a reliable client and the report store `demoStore`. -/
def demoPodReconciler : PodReconciler :=
  { Config := demoOperator, Client := Client.reliable, Store := demoStore.toInterface,
    Scanner := demoScanner }

/-- The pod `ns/app-7`, controlled by the ReplicaSet `app-rs`, with container
`web` ready. -/
def demoPod : Pod :=
  { Namespace := "ns", Name := "app-7", Labels := [], DeletionTimestamp := none,
    Controller := some ("ReplicaSet", "app-rs"), Containers := ["web"],
    Status := { Conditions := [ContainersReady],
                ContainerStatuses := [{ Name := "web", ImageID := "docker://nginx@sha256:aaa" }] } }

/-- The scan Job `demoScanner` builds for the ReplicaSet `ns/app-rs`. -/
def demoScanJob : Job :=
  { Namespace := "starboard-operator", Name := "scan-app-rs",
    Labels := ownerSelector demoOwner ++ [("app.kubernetes.io/managed-by", "starboard-operator")],
    Annotations := [(AnnotationContainerImages, "web=nginx aaa")],
    Selector := some [("controller-uid", "uid-1")], Conditions := [] }

/-- A Job of the operator namespace named `scan-app-rs` that carries no labels. -/
def demoUnlabelledJob : Job :=
  { Namespace := "starboard-operator", Name := "scan-app-rs", Labels := [], Annotations := [],
    Selector := some [], Conditions := [] }

/-- The cluster `demoCluster` with the pod `demoPod`. -/
def demoClusterWithPod : Cluster :=
  { demoCluster with pods := [demoPod] }

/-- The cluster `demoClusterWithPod` with the unlabelled Job `scan-app-rs`. -/
def demoClusterNameTaken : Cluster :=
  { demoClusterWithPod with jobs := [demoUnlabelledJob] }

/-- The pod `ns/app-7` before any of its containers has a status. -/
def demoPodNoStatuses : Pod :=
  { demoPod with Status := { Conditions := [ContainersReady], ContainerStatuses := [] } }

/-- The cluster `demoCluster` with the pod `demoPodNoStatuses`. -/
def demoClusterNoStatuses : Cluster :=
  { demoCluster with pods := [demoPodNoStatuses] }

instance Cluster.decidableHasJob (c : Cluster) (ns name : String) : Decidable (c.hasJob ns name) := by
  unfold Cluster.hasJob
  exact inferInstance

/-- The scan Job `demoScanJob` with the given first condition. -/
def demoFinishedJob (condition : String) : Job :=
  { demoScanJob with Conditions := [condition] }

/-- The pod controlled by the scan Job, with the given containers. -/
def demoScanPod (containers : List String) : Pod :=
  { Namespace := "starboard-operator", Name := "scan-app-rs-x2x",
    Labels := [("controller-uid", "uid-1"), ("app.kubernetes.io/managed-by", "starboard-operator")],
    DeletionTimestamp := none, Controller := some ("Job", "scan-app-rs"),
    Containers := containers, Status := { Conditions := [], ContainerStatuses := [] } }

/-- A job reconciler over a reliable client and the report store `demoStore`.
Only the container `web` has logs; the owner is read from the kind and name
labels; the stand-in for `FromJSON` decodes one `name=image` entry; a findings
map is visited in the order of insertion. -/
def demoJobReconciler : JobReconciler :=
  { Config := demoOperator, Client := Client.reliable
    LogsReader := fun _ _ container =>
      if container = "web" then .ok "CVE-1" else .error (.msg "container not found")
    Scanner := demoScanner, Store := demoStore.toInterface
    ObjectFromLabelsSet := fun labels =>
      match mapGet labels LabelResourceKind, mapGet labels LabelResourceName with
      | some kind, some name =>
        .ok { Kind := kind, Name := name, Namespace := mapIndex labels LabelResourceNamespace }
      | _, _ => .error (.msg "required label does not exist")
    FromJSON := fun text =>
      match Split text '=' with
      | [name, image] => .ok [(name, image)]
      | _ => .error (.msg "invalid character")
    Range := { visit := fun m => m, rearranges := fun m => List.Perm.refl m } }

/-- A cluster with the ReplicaSet `ns/app-rs`, its scan Job with the given
first condition, and the pods given. -/
def demoClusterWithJob (condition : String) (pods : List Pod) : Cluster :=
  { demoCluster with jobs := [demoFinishedJob condition], pods := pods }

/-- The key of the scan Job. -/
def demoJobKey : NamespacedName := { Namespace := "starboard-operator", Name := "scan-app-rs" }

/-- A cluster whose Complete scan Job has lost its images annotation. -/
def demoClusterNoAnnotation : Cluster :=
  { demoCluster with
    jobs := [{ demoFinishedJob JobComplete with Annotations := [] }],
    pods := [demoScanPod ["web"]] }

/-- The cluster `demoClusterWithPod` with the report `demoReport` stored. -/
def demoClusterPodAndReport : Cluster :=
  { demoClusterWithPod with reports := [demoReport] }

/-- A report under the name `Store.Write` gives container `web` of the
ReplicaSet `ns/app-rs`, annotated with the hash of an older image. -/
def demoStaleReport : VulnerabilityReport :=
  { demoReport with Annotations := [(AnnotationImageHash, "old")] }

/-- The job reconciler `demoJobReconciler` with logs for every container and
the given order of visiting a findings map. -/
def demoJobReconcilerWithOrder (order : RangeOrder) : JobReconciler :=
  { demoJobReconciler with LogsReader := fun _ _ _ => .ok "CVE-1", Range := order }

/-- Visiting a findings map in the order of insertion. -/
def insertionOrder : RangeOrder :=
  { visit := fun m => m, rearranges := fun m => List.Perm.refl m }

/-- Visiting a findings map in the reverse of the order of insertion. -/
def reverseOrder : RangeOrder :=
  { visit := fun m => m.reverse, rearranges := fun m => List.reverse_perm m }

/-- A cluster with the Complete scan Job, its pod with the containers `web` and
`sidecar`, and the stale report `demoStaleReport`. -/
def demoClusterStale : Cluster :=
  { demoClusterWithJob JobComplete [demoScanPod ["web", "sidecar"]] with
    reports := [demoStaleReport] }

/-! ## Lemmas on maps and splitting -/

theorem mapGet_mapSet {β : Type} (m : List (String × β)) (k k' : String) (v : β) :
    mapGet (mapSet m k v) k' = if k = k' then some v else mapGet m k' := by
  induction m with
  | nil => simp [mapSet, mapGet]
  | cons hd tl ih =>
    obtain ⟨a, b⟩ := hd
    by_cases h : a = k
    · subst h
      by_cases h2 : a = k' <;> simp [mapSet, mapGet, h2]
    · by_cases h2 : a = k'
      · subst h2
        have h3 : ¬ k = a := fun e => h e.symm
        simp [mapSet, mapGet, h, h3]
      · simp [mapSet, mapGet, h, h2, ih]

theorem mem_mapKeys_iff {β : Type} (m : List (String × β)) (k : String) :
    k ∈ mapKeys m ↔ ∃ v, mapGet m k = some v := by
  induction m with
  | nil => simp [mapKeys, mapGet]
  | cons hd tl ih =>
    obtain ⟨a, b⟩ := hd
    by_cases h : a = k
    · subst h
      simp [mapKeys, mapGet]
    · have h' : ¬ k = a := fun e => h e.symm
      simp only [mapKeys, List.map_cons, List.mem_cons, h', false_or, mapGet, h, if_false]
      simpa [mapKeys] using ih

theorem splitChars_ne_nil (sep : Char) (l : List Char) : splitChars sep l ≠ [] := by
  cases l with
  | nil => simp [splitChars]
  | cons c cs =>
    by_cases h : c = sep
    · simp [splitChars, h]
    · simp only [splitChars, h, if_false]
      split <;> simp

theorem joinWith_splitChars (sep : Char) (l : List Char) :
    joinWith sep (splitChars sep l) = l := by
  induction l with
  | nil => simp [splitChars, joinWith]
  | cons c cs ih =>
    have hne := splitChars_ne_nil sep cs
    cases hs : splitChars sep cs with
    | nil => exact absurd hs hne
    | cons x xs =>
      rw [hs] at ih
      by_cases h : c = sep
      · subst h
        simp [splitChars, hs, joinWith, ih]
      · simp only [splitChars, h, if_false, hs]
        cases xs with
        | nil => simpa [joinWith] using ih
        | cons y ys => simpa [joinWith] using ih

theorem not_mem_of_mem_splitChars (sep : Char) (l : List Char) :
    ∀ p ∈ splitChars sep l, sep ∉ p := by
  induction l with
  | nil => simp [splitChars]
  | cons c cs ih =>
    have hne := splitChars_ne_nil sep cs
    cases hs : splitChars sep cs with
    | nil => exact absurd hs hne
    | cons x xs =>
      rw [hs] at ih
      by_cases h : c = sep
      · subst h
        intro p hp
        simp only [splitChars, if_true, hs, List.mem_cons] at hp
        rcases hp with rfl | hp
        · simp
        · exact ih p (by simpa using hp)
      · intro p hp
        simp only [splitChars, h, if_false, hs, List.mem_cons] at hp
        rcases hp with rfl | hp
        · have hx := ih x (by simp)
          simp [hx, Ne.symm h]
        · exact ih p (by simp [hp])

theorem lastElem_mem {α : Type} (d : α) (ps : List α) (h : ps ≠ []) : lastElem d ps ∈ ps := by
  induction ps with
  | nil => exact absurd rfl h
  | cons x xs ih =>
    cases xs with
    | nil => simp [lastElem]
    | cons y ys =>
      have := ih (by simp)
      simp only [lastElem]
      exact List.mem_cons_of_mem _ this

theorem lastElem_map {α β : Type} (f : α → β) (d : α) (d' : β) (ps : List α) (h : ps ≠ []) :
    lastElem d' (ps.map f) = f (lastElem d ps) := by
  induction ps with
  | nil => exact absurd rfl h
  | cons x xs ih =>
    cases xs with
    | nil => simp [lastElem]
    | cons y ys =>
      have := ih (by simp)
      simpa [lastElem] using this

theorem joinWith_lastElem (sep : Char) (ps : List (List Char)) (h : ps ≠ []) :
    (ps = [lastElem [] ps]) ∨ ∃ pre, joinWith sep ps = pre ++ sep :: lastElem [] ps := by
  induction ps with
  | nil => exact absurd rfl h
  | cons x xs ih =>
    cases xs with
    | nil => simp [lastElem]
    | cons y ys =>
      right
      rcases ih (by simp) with h1 | ⟨pre, h1⟩
      · refine ⟨x, ?_⟩
        have : joinWith sep (y :: ys) = lastElem [] (y :: ys) := by
          rw [h1]; simp [joinWith, lastElem]
        simp only [joinWith, lastElem]
        rw [this]
      · refine ⟨x ++ sep :: pre, ?_⟩
        simp only [joinWith, lastElem]
        rw [h1]
        simp

/-- The last piece of a split holds no separator and is what follows the last
separator of the sequence, or the whole sequence when it has no separator. -/
theorem lastElem_splitChars (sep : Char) (l : List Char) :
    sep ∉ lastElem [] (splitChars sep l) ∧
      ((sep ∉ l ∧ lastElem [] (splitChars sep l) = l) ∨
        ∃ pre, l = pre ++ sep :: lastElem [] (splitChars sep l)) := by
  have hne := splitChars_ne_nil sep l
  have hmem := lastElem_mem [] (splitChars sep l) hne
  have hno := not_mem_of_mem_splitChars sep l _ hmem
  refine ⟨hno, ?_⟩
  have hj := joinWith_splitChars sep l
  rcases joinWith_lastElem sep (splitChars sep l) hne with h1 | ⟨pre, h1⟩
  · left
    have hl : lastElem [] (splitChars sep l) = l := by
      have h2 : joinWith sep [lastElem [] (splitChars sep l)] = l := by
        rw [← h1]; exact hj
      simpa [joinWith] using h2
    exact ⟨by rw [← hl]; exact hno, hl⟩
  · right
    exact ⟨pre, hj.symm.trans h1⟩

theorem lastPiece_Split (s : String) (sep : Char) :
    lastPiece (Split s sep) = String.mk (lastElem [] (splitChars sep s.data)) := by
  unfold lastPiece Split
  exact lastElem_map String.mk [] "" _ (splitChars_ne_nil sep s.data)

theorem lastPiece_Split_colon (imageID : String) :
    ':' ∉ (lastPiece (Split imageID ':')).data ∧
      AfterLastColon imageID (lastPiece (Split imageID ':')) := by
  rw [lastPiece_Split]
  obtain ⟨h1, h2⟩ := lastElem_splitChars ':' imageID.data
  refine ⟨h1, ?_⟩
  rcases h2 with ⟨h3, h4⟩ | ⟨pre, h3⟩
  · left
    refine ⟨h3, ?_⟩
    rw [h4]
  · right
    exact ⟨pre, h3⟩

/-! ## `GetContainerImagesFromPodStatus` -/

theorem GetContainerImagesLoop_absent (name : String) (statuses : List ContainerStatus) :
    ∀ images : ContainerImages, (∀ cs ∈ statuses, cs.Name ≠ name) →
      mapGet (GetContainerImagesLoop images statuses) name = mapGet images name := by
  induction statuses with
  | nil => intro images _; rfl
  | cons hd tl ih =>
    intro images h
    simp only [GetContainerImagesLoop]
    rw [ih _ (fun cs hcs => h cs (List.mem_cons_of_mem _ hcs)), mapGet_mapSet]
    simp [h hd (by simp)]

theorem GetContainerImagesLoop_get (name v : String) (statuses : List ContainerStatus) :
    ∀ images : ContainerImages, mapGet (GetContainerImagesLoop images statuses) name = some v →
      mapGet images name = some v ∨
        ∃ cs ∈ statuses, cs.Name = name ∧ v = lastPiece (Split cs.ImageID ':') := by
  induction statuses with
  | nil => intro images h; exact Or.inl h
  | cons hd tl ih =>
    intro images h
    simp only [GetContainerImagesLoop] at h
    rcases ih _ h with h1 | ⟨cs, hcs, h2, h3⟩
    · rw [mapGet_mapSet] at h1
      by_cases hn : hd.Name = name
      · right
        simp only [hn, if_true, Option.some.injEq] at h1
        exact ⟨hd, by simp, hn, h1.symm⟩
      · left
        simpa [hn] using h1
    · exact Or.inr ⟨cs, List.mem_cons_of_mem _ hcs, h2, h3⟩

theorem GetContainerImagesLoop_present (statuses : List ContainerStatus) :
    ∀ (images : ContainerImages) (cs : ContainerStatus), cs ∈ statuses →
      ∃ v, mapGet (GetContainerImagesLoop images statuses) cs.Name = some v := by
  induction statuses with
  | nil => intro images cs h; simp at h
  | cons hd tl ih =>
    intro images cs h
    simp only [GetContainerImagesLoop]
    by_cases hex : ∃ cs' ∈ tl, cs'.Name = cs.Name
    · obtain ⟨cs', hcs', hn⟩ := hex
      rw [← hn]
      exact ih _ cs' hcs'
    · have hab : ∀ cs' ∈ tl, cs'.Name ≠ cs.Name := fun cs' h1 h2 => hex ⟨cs', h1, h2⟩
      rw [GetContainerImagesLoop_absent _ _ _ hab, mapGet_mapSet]
      rcases List.mem_cons.mp h with rfl | h1
      · simp
      · exact absurd rfl (hab cs h1)

theorem GetContainerImagesLoop_unique (statuses : List ContainerStatus) :
    ∀ (images : ContainerImages) (cs : ContainerStatus), cs ∈ statuses →
      (∀ cs' ∈ statuses, cs'.Name = cs.Name → cs' = cs) →
      mapGet (GetContainerImagesLoop images statuses) cs.Name
        = some (lastPiece (Split cs.ImageID ':')) := by
  intro images cs hmem huniq
  obtain ⟨v, hv⟩ := GetContainerImagesLoop_present statuses images cs hmem
  induction statuses generalizing images with
  | nil => simp at hmem
  | cons hd tl ih =>
    simp only [GetContainerImagesLoop] at hv ⊢
    by_cases htl : cs ∈ tl
    · exact ih _ htl (fun cs' h1 h2 => huniq cs' (List.mem_cons_of_mem _ h1) h2) hv
    · have hhd : cs = hd := by
        rcases List.mem_cons.mp hmem with h1 | h1
        · exact h1
        · exact absurd h1 htl
      subst hhd
      have hab : ∀ cs' ∈ tl, cs'.Name ≠ cs.Name := by
        intro cs' h1 h2
        have := huniq cs' (List.mem_cons_of_mem _ h1) h2
        exact htl (this ▸ h1)
      rw [GetContainerImagesLoop_absent _ _ _ hab, mapGet_mapSet]
      simp

/-! ## `SliceContainsString` -/

theorem SliceContainsString_foldl (value : String) (slice : List String) :
    ∀ b : Bool,
      slice.foldl (fun exists_ targetNamespace => if targetNamespace = value then true else exists_) b
        = true ↔ b = true ∨ value ∈ slice := by
  induction slice with
  | nil => intro b; simp
  | cons hd tl ih =>
    intro b
    simp only [List.foldl_cons]
    rw [ih]
    by_cases h : hd = value
    · simp [h]
    · have h' : ¬ value = hd := fun e => h e.symm
      simp [h, h']

theorem SliceContainsString_iff (slice : List String) (value : String) :
    SliceContainsString slice value = true ↔ value ∈ slice := by
  unfold SliceContainsString
  rw [SliceContainsString_foldl]
  simp

/-! ## Admission by namespace -/

/-- C8: `IgnorePodInOperatorNamespace` returns true exactly when the pod's
namespace is the operator namespace and the mode is single-namespace, or
multi-namespace with the operator namespace absent from the target namespaces.
So in single-namespace mode a pod of the operator namespace is always skipped,
and a pod of another namespace is never skipped by this check. -/
theorem IgnorePodInOperatorNamespace_iff (r : PodReconciler) (installMode : InstallMode)
    (pod : NamespacedName) :
    (r.IgnorePodInOperatorNamespace installMode pod = true ↔
      pod.Namespace = r.Config.Namespace ∧
        (installMode = InstallModeSingleNamespace ∨
          (installMode = InstallModeMultiNamespace ∧
            r.Config.Namespace ∉ r.Config.GetTargetNamespaces))) ∧
    (pod.Namespace = r.Config.Namespace →
      r.IgnorePodInOperatorNamespace InstallModeSingleNamespace pod = true) ∧
    (pod.Namespace ≠ r.Config.Namespace →
      r.IgnorePodInOperatorNamespace installMode pod = false) := by
  have key : r.IgnorePodInOperatorNamespace installMode pod = true ↔
      pod.Namespace = r.Config.Namespace ∧
        (installMode = InstallModeSingleNamespace ∨
          (installMode = InstallModeMultiNamespace ∧
            r.Config.Namespace ∉ r.Config.GetTargetNamespaces)) := by
    unfold PodReconciler.IgnorePodInOperatorNamespace
    have hs := SliceContainsString_iff r.Config.GetTargetNamespaces r.Config.Namespace
    by_cases h1 : installMode = InstallModeSingleNamespace ∧ pod.Namespace = r.Config.Namespace
    · simp [h1]
    · rw [if_neg h1]
      by_cases h2 : installMode = InstallModeMultiNamespace ∧ pod.Namespace = r.Config.Namespace
          ∧ ¬ (SliceContainsString r.Config.GetTargetNamespaces r.Config.Namespace = true)
      · rw [if_pos h2]
        simp only [true_iff]
        exact ⟨h2.2.1, Or.inr ⟨h2.1, fun hm => h2.2.2 (hs.mpr hm)⟩⟩
      · rw [if_neg h2]
        simp only [Bool.false_eq_true, false_iff]
        rintro ⟨hn, hs | ⟨hm, ht⟩⟩
        · exact h1 ⟨hs, hn⟩
        · exact h2 ⟨hm, hn, fun hc => ht (hs.mp hc)⟩
  refine ⟨key, ?_, ?_⟩
  · intro hn
    unfold PodReconciler.IgnorePodInOperatorNamespace
    simp [hn]
  · intro hn
    cases hv : r.IgnorePodInOperatorNamespace installMode pod with
    | false => rfl
    | true => exact absurd (key.mp hv).1 hn

/-! ## Images of a pod status -/

/-- C9: the keys of the map `GetContainerImagesFromPodStatus` returns are
exactly the names of the container statuses; every value is what follows the
last `':'` of the image ID of a container status of that name (the whole image
ID when it holds no `':'`) and holds no `':'`; and a container status whose
name no other status bears has its own image ID's digest as its value. -/
theorem GetContainerImagesFromPodStatus_spec (status : PodStatus) :
    (∀ name, name ∈ mapKeys (GetContainerImagesFromPodStatus status) ↔
      ∃ cs ∈ status.ContainerStatuses, cs.Name = name) ∧
    (∀ name v, mapGet (GetContainerImagesFromPodStatus status) name = some v →
      ∃ cs ∈ status.ContainerStatuses, cs.Name = name ∧
        AfterLastColon cs.ImageID v ∧ ':' ∉ v.data ∧ v.data <:+ cs.ImageID.data) ∧
    (∀ cs ∈ status.ContainerStatuses,
      (∀ cs' ∈ status.ContainerStatuses, cs'.Name = cs.Name → cs' = cs) →
      ∃ v, mapGet (GetContainerImagesFromPodStatus status) cs.Name = some v ∧
        AfterLastColon cs.ImageID v ∧ ':' ∉ v.data ∧ v.data <:+ cs.ImageID.data) := by
  have suffix : ∀ imageID v : String, AfterLastColon imageID v → v.data <:+ imageID.data := by
    intro imageID v h
    rcases h with ⟨_, h⟩ | ⟨pre, h⟩
    · rw [h]
    · exact ⟨pre ++ [':'], by rw [h]; simp⟩
  refine ⟨?_, ?_, ?_⟩
  · intro name
    rw [mem_mapKeys_iff]
    constructor
    · rintro ⟨v, hv⟩
      rcases GetContainerImagesLoop_get name v _ [] hv with h | ⟨cs, h1, h2, _⟩
      · simp [mapGet] at h
      · exact ⟨cs, h1, h2⟩
    · rintro ⟨cs, h1, rfl⟩
      exact GetContainerImagesLoop_present _ [] cs h1
  · intro name v hv
    rcases GetContainerImagesLoop_get name v _ [] hv with h | ⟨cs, h1, h2, h3⟩
    · simp [mapGet] at h
    · obtain ⟨h4, h5⟩ := lastPiece_Split_colon cs.ImageID
      rw [← h3] at h4 h5
      exact ⟨cs, h1, h2, h5, h4, suffix _ _ h5⟩
  · intro cs h1 h2
    obtain ⟨h4, h5⟩ := lastPiece_Split_colon cs.ImageID
    exact ⟨_, GetContainerImagesLoop_unique _ [] cs h1 h2, h5, h4, suffix _ _ h5⟩

/-! ## The hash field of an image string -/

theorem splitChars_length (sep : Char) (l : List Char) :
    (splitChars sep l).length = l.count sep + 1 := by
  induction l with
  | nil => simp [splitChars]
  | cons c cs ih =>
    have hne := splitChars_ne_nil sep cs
    cases hs : splitChars sep cs with
    | nil => exact absurd hs hne
    | cons x xs =>
      rw [hs] at ih
      by_cases h : c = sep
      · subst h
        simp only [splitChars, if_true, hs, List.length_cons, List.count_cons_self]
        simp only [List.length_cons] at ih
        omega
      · simp only [splitChars, h, if_false, hs, List.length_cons]
        have hc : List.count sep (c :: cs) = List.count sep cs := by
          simp [List.count_cons, h]
        rw [hc]
        simpa using ih

/-- An image string has a hash field exactly when it holds a space. -/
theorem imageHashField_isSome_iff (image : String) :
    (∃ hash, imageHashField image = some hash) ↔ ' ' ∈ image.data := by
  unfold imageHashField Split
  have hlen := splitChars_length ' ' image.data
  rw [← List.count_pos_iff]
  constructor
  · rintro ⟨hash, h⟩
    have h1 := (List.getElem?_eq_some_iff.mp h).1
    simp only [List.length_map] at h1
    omega
  · intro h
    have h1 : 1 < (List.map String.mk (splitChars ' ' image.data)).length := by
      simp only [List.length_map]; omega
    exact ⟨_, List.getElem?_eq_getElem h1⟩

theorem imageHashField_eq_none_iff (image : String) :
    imageHashField image = none ↔ ' ' ∉ image.data := by
  rw [← imageHashField_isSome_iff]
  cases imageHashField image <;> simp

/-! ## `Store.Read` and `Store.HasVulnerabilityReports` -/

theorem readLoop_found (image hash : String) (h : imageHashField image = some hash)
    (items : List VulnerabilityReport)
    (hex : ∃ item ∈ items, mapGet item.Annotations AnnotationImageHash = some hash) :
    ∃ report, Store.readLoop image items = .ok (some report) := by
  induction items with
  | nil => simp at hex
  | cons item rest ih =>
    unfold Store.readLoop
    cases ha : mapGet item.Annotations AnnotationImageHash with
    | none =>
      simp only
      apply ih
      obtain ⟨it, hit, hann⟩ := hex
      rcases List.mem_cons.mp hit with rfl | hit
      · rw [ha] at hann; cases hann
      · exact ⟨it, hit, hann⟩
    | some containerHash =>
      simp only [h]
      by_cases heq : containerHash = hash
      · exact ⟨item.Report, by simp [heq]⟩
      · simp only [heq, if_false]
        apply ih
        obtain ⟨it, hit, hann⟩ := hex
        rcases List.mem_cons.mp hit with rfl | hit
        · rw [ha] at hann
          exact absurd (Option.some.inj hann) heq
        · exact ⟨it, hit, hann⟩

theorem readLoop_absent (image hash : String) (h : imageHashField image = some hash)
    (items : List VulnerabilityReport)
    (hex : ¬ ∃ item ∈ items, mapGet item.Annotations AnnotationImageHash = some hash) :
    Store.readLoop image items = .ok none := by
  induction items with
  | nil => rfl
  | cons item rest ih =>
    have hrest : ¬ ∃ it ∈ rest, mapGet it.Annotations AnnotationImageHash = some hash :=
      fun ⟨it, hit, hann⟩ => hex ⟨it, List.mem_cons_of_mem _ hit, hann⟩
    unfold Store.readLoop
    cases ha : mapGet item.Annotations AnnotationImageHash with
    | none => simpa using ih hrest
    | some containerHash =>
      have hne : containerHash ≠ hash := fun e => hex ⟨item, by simp, by rw [ha, e]⟩
      simp only [h, hne, if_false]
      exact ih hrest

theorem Store.Read_fst (s : Store) (c : Cluster) (workload : Object) (image : String) :
    (s.Read c workload image).1 = c.record (.listReports workload.Namespace) := by
  unfold Store.Read Client.ListReports
  cases s.client.listReportsErr <;> rfl

theorem Store.Read_snd (s : Store) (c : Cluster) (workload : Object) (image : String)
    (hlist : s.client.listReportsErr = none) :
    (s.Read c workload image).2
      = Store.readLoop image (c.reports.filter (fun r => decide (r.Namespace = workload.Namespace))) := by
  unfold Store.Read Client.ListReports
  rw [hlist]

theorem mem_filter_namespace (c : Cluster) (ns hash : String) :
    (∃ item ∈ c.reports.filter (fun r => decide (r.Namespace = ns)),
      mapGet item.Annotations AnnotationImageHash = some hash) ↔ c.hasReportWithHash ns hash := by
  unfold Cluster.hasReportWithHash
  constructor
  · rintro ⟨item, hmem, hann⟩
    rw [List.mem_filter] at hmem
    exact ⟨item, hmem.1, by simpa using hmem.2, hann⟩
  · rintro ⟨item, hmem, hns, hann⟩
    exact ⟨item, List.mem_filter.mpr ⟨hmem, by simpa using hns⟩, hann⟩

theorem hasReportWithHash_record (c : Cluster) (call : Call) (ns hash : String) :
    (c.record call).hasReportWithHash ns hash ↔ c.hasReportWithHash ns hash := Iff.rfl

theorem HasVulnerabilityReports_of_fields (s : Store) (owner : Object)
    (hlist : s.client.listReportsErr = none) (containerImages : ContainerImages) :
    ∀ c : Cluster, (∀ entry ∈ containerImages, ' ' ∈ entry.2.data) →
      ∃ b, (s.HasVulnerabilityReports owner c containerImages).2 = .ok b ∧
        (b = true ↔ ∀ entry ∈ containerImages, ∃ hash,
          imageHashField entry.2 = some hash ∧ c.hasReportWithHash owner.Namespace hash) := by
  induction containerImages with
  | nil => intro c _; exact ⟨true, rfl, by simp⟩
  | cons entry rest ih =>
    intro c hsp
    obtain ⟨name, image⟩ := entry
    obtain ⟨hash, hh⟩ := (imageHashField_isSome_iff image).mpr (hsp (name, image) (by simp))
    have hrest : ∀ e ∈ rest, ' ' ∈ e.2.data := fun e he => hsp e (List.mem_cons_of_mem _ he)
    have hfst := Store.Read_fst s c owner image
    have hsnd := Store.Read_snd s c owner image hlist
    unfold Store.HasVulnerabilityReports
    by_cases hex : c.hasReportWithHash owner.Namespace hash
    · obtain ⟨report, hr⟩ := readLoop_found image hash hh _
        ((mem_filter_namespace c owner.Namespace hash).mpr hex)
      rw [hr] at hsnd
      have hread : s.Read c owner image
          = (c.record (.listReports owner.Namespace), .ok (some report)) := by
        rw [← hfst, ← hsnd]
      rw [hread]
      obtain ⟨b, hb, hiff⟩ := ih (c.record (.listReports owner.Namespace)) hrest
      refine ⟨b, hb, ?_⟩
      rw [hiff]
      constructor
      · intro hall e he
        rcases List.mem_cons.mp he with rfl | he
        · exact ⟨hash, hh, hex⟩
        · exact hall e he
      · intro hall e he
        exact hall e (List.mem_cons_of_mem _ he)
    · have hr := readLoop_absent image hash hh _
        (fun hx => hex ((mem_filter_namespace c owner.Namespace hash).mp hx))
      rw [hr] at hsnd
      have hread : s.Read c owner image
          = (c.record (.listReports owner.Namespace), .ok none) := by
        rw [← hfst, ← hsnd]
      rw [hread]
      refine ⟨false, rfl, ?_⟩
      simp only [Bool.false_eq_true, false_iff]
      intro hall
      obtain ⟨hash', hh', hex'⟩ := hall (name, image) (by simp)
      rw [hh] at hh'
      cases hh'
      exact hex hex'

/-! ## Coverage of an image map by stored reports -/

/-- C3 (the code departs from it): with images `web: aaa`, `sidecar: bbb` and
only a report annotated `aaa` stored, `HasVulnerabilityReports` does not return
false: in either visiting order the first `Read` indexes element 1 of a
one-element split and panics.  The pod reconciler passes such bare digests:
for the pod `ns/app-7`, whose container `web` has the image ID
`docker://nginx@sha256:aaa`, the image map is `web: aaa`, and with that report
stored `PodReconciler.Reconcile` panics in the same way. -/
theorem HasVulnerabilityReports_bare_digest_panics :
    (demoStore.HasVulnerabilityReports demoOwner demoClusterWithReport
        [("web", "aaa"), ("sidecar", "bbb")]).2
      = .panic "index out of range [1] with length 1" ∧
    (demoStore.HasVulnerabilityReports demoOwner demoClusterWithReport
        [("sidecar", "bbb"), ("web", "aaa")]).2
      = .panic "index out of range [1] with length 1" ∧
    (demoStore.HasVulnerabilityReports demoOwner demoClusterWithReport
        [("web", "aaa"), ("sidecar", "bbb")]).2 ≠ .ok false ∧
    GetContainerImagesFromPodStatus demoPod.Status = [("web", "aaa")] ∧
    GetImmediateOwnerReference demoPod = demoOwner ∧
    (demoPodReconciler.Reconcile demoClusterPodAndReport { Namespace := "ns", Name := "app-7" }).2
      = .panic "index out of range [1] with length 1" := by
  decide

/-- On image maps in the format of the Job annotation, where every value holds
a space: when the list of reports succeeds, `HasVulnerabilityReports` returns
without error, and returns true exactly when, for every entry of the map, some
report of the owner's namespace carries an imagehash annotation equal to the
second space-separated field of the entry's value. -/
theorem HasVulnerabilityReports_iff (s : Store) (owner : Object) (c : Cluster)
    (containerImages : ContainerImages)
    (hlist : s.client.listReportsErr = none)
    (hspace : ∀ entry ∈ containerImages, ' ' ∈ entry.2.data) :
    ∃ b, (s.HasVulnerabilityReports owner c containerImages).2 = .ok b ∧
      (b = true ↔ ∀ entry ∈ containerImages, ∃ hash,
        imageHashField entry.2 = some hash ∧
        ∃ report ∈ c.reports, report.Namespace = owner.Namespace ∧
          mapGet report.Annotations AnnotationImageHash = some hash) :=
  HasVulnerabilityReports_of_fields s owner hlist containerImages c hspace

/-- At images `web: nginx aaa`, `sidecar: redis bbb` with only a report
annotated `aaa` stored, the result is false, with no error. -/
theorem HasVulnerabilityReports_iff_witness :
    demoStore.client.listReportsErr = none ∧
    (∀ entry ∈ [("web", "nginx aaa"), ("sidecar", "redis bbb")], ' ' ∈ entry.2.data) ∧
    (demoStore.HasVulnerabilityReports demoOwner demoClusterWithReport
        [("web", "nginx aaa"), ("sidecar", "redis bbb")]).2 = .ok false ∧
    ∃ b, (demoStore.HasVulnerabilityReports demoOwner demoClusterWithReport
        [("web", "nginx aaa"), ("sidecar", "redis bbb")]).2 = .ok b ∧
      (b = true ↔ ∀ entry ∈ [("web", "nginx aaa"), ("sidecar", "redis bbb")], ∃ hash,
        imageHashField entry.2 = some hash ∧
        ∃ report ∈ demoClusterWithReport.reports, report.Namespace = demoOwner.Namespace ∧
          mapGet report.Annotations AnnotationImageHash = some hash) :=
  ⟨by decide, by decide, by decide,
    HasVulnerabilityReports_iff demoStore demoOwner demoClusterWithReport
      [("web", "nginx aaa"), ("sidecar", "redis bbb")] (by decide) (by decide)⟩

/-! ## `Store.Write` -/

theorem SetOwnerReference_buildReport (scheme : List String) (owner workload : Object)
    (containerName hash : String) (report : VulnerabilityScanResult)
    (vr : VulnerabilityReport)
    (h : SetOwnerReference scheme owner (buildReport workload containerName report hash) = .ok vr) :
    vr = { buildReport workload containerName report hash with OwnerReferences := [owner] } := by
  unfold SetOwnerReference at h
  split at h
  · simp only [Except.ok.injEq] at h
    rw [← h]
    simp [buildReport]
  · cases h

theorem CreateReport_ok (k : Client) (c c1 : Cluster) (vr : VulnerabilityReport)
    (h : k.CreateReport c vr = (c1, .ok ())) :
    k.createReportErr = none ∧
      c1 = { c with reports := c.reports ++ [vr], calls := c.calls ++ [.createReport vr] } := by
  unfold Client.CreateReport at h
  cases he : k.createReportErr with
  | some e => rw [he] at h; simp at h
  | none =>
    rw [he] at h
    simp only at h
    split at h
    · simp at h
    · simp only [Prod.mk.injEq, and_true] at h
      exact ⟨rfl, by rw [← h]; rfl⟩

theorem CreateReport_error (k : Client) (c c1 : Cluster) (vr : VulnerabilityReport) (e : Err)
    (h : k.CreateReport c vr = (c1, .error e)) :
    c1 = c.record (.createReport vr) := by
  unfold Client.CreateReport at h
  cases he : k.createReportErr with
  | some e' =>
    rw [he] at h
    simp only [Prod.mk.injEq] at h
    exact h.1.symm
  | none =>
    rw [he] at h
    simp only at h
    split at h
    · simp only [Prod.mk.injEq] at h
      exact h.1.symm
    · simp at h

theorem CreateReport_conflict (k : Client) (c : Cluster) (vr : VulnerabilityReport)
    (hk : k.createReportErr = none)
    (hex : ∃ r ∈ c.reports, r.Namespace = vr.Namespace ∧ r.Name = vr.Name) :
    k.CreateReport c vr = (c.record (.createReport vr), .error .alreadyExists) := by
  unfold Client.CreateReport
  rw [hk]
  have : c.reports.any (fun r => decide (r.Namespace = vr.Namespace ∧ r.Name = vr.Name)) = true := by
    rw [List.any_eq_true]
    obtain ⟨r, hr, h1, h2⟩ := hex
    exact ⟨r, hr, by simp [h1, h2]⟩
  simp only
  rw [if_pos this]

theorem hasWorkload_congr (c c' : Cluster) (h : c.sameWorkloads c') (workload : Object) :
    c'.hasWorkload workload = c.hasWorkload workload := by
  obtain ⟨h1, h2, h3⟩ := h
  unfold Cluster.hasWorkload
  rw [h1, h2, h3]

/-- What the write loop leaves behind: the reports stored before, followed by
reports built from entries of the findings map. -/
theorem writeLoop_reports (s : Store) (workload owner : Object) (containerImages : ContainerImages)
    (reports : List (String × VulnerabilityScanResult)) :
    ∀ c : Cluster, c.sameWorkloads (s.writeLoop workload owner containerImages c reports).1 ∧
      ∃ created, (s.writeLoop workload owner containerImages c reports).1.reports
          = c.reports ++ created ∧
        ∀ r ∈ created, ∃ entry ∈ reports, ∃ hash,
          imageHashField (mapIndex containerImages entry.1) = some hash ∧
          r = reportFor workload owner entry.1 entry.2 hash := by
  induction reports with
  | nil => intro c; exact ⟨⟨rfl, rfl, rfl⟩, [], by simp [Store.writeLoop], by simp⟩
  | cons entry rest ih =>
    intro c
    obtain ⟨containerName, report⟩ := entry
    unfold Store.writeLoop
    cases h1 : imageHashField (mapIndex containerImages containerName) with
    | none => exact ⟨⟨rfl, rfl, rfl⟩, [], by simp, by simp⟩
    | some hash =>
      simp only
      cases h2 : SetOwnerReference s.scheme owner (buildReport workload containerName report hash) with
      | error e => exact ⟨⟨rfl, rfl, rfl⟩, [], by simp, by simp⟩
      | ok vr =>
        simp only
        have hvr := SetOwnerReference_buildReport _ _ _ _ _ _ _ h2
        cases h3 : s.client.CreateReport c vr with
        | mk c1 res =>
          cases res with
          | error e =>
            have hc1 := CreateReport_error _ _ _ _ _ h3
            simp only
            subst hc1
            exact ⟨⟨rfl, rfl, rfl⟩, [], by simp [Cluster.record], by simp⟩
          | ok u =>
            cases u
            obtain ⟨_, hc1⟩ := CreateReport_ok _ _ _ _ h3
            simp only
            obtain ⟨⟨hp, hj, hw⟩, created, hcr, hall⟩ := ih c1
            refine ⟨⟨?_, ?_, ?_⟩, vr :: created, ?_, ?_⟩
            · rw [hp, hc1]
            · rw [hj, hc1]
            · rw [hw, hc1]
            · rw [hcr, hc1]; simp
            · intro r hr
              rcases List.mem_cons.mp hr with rfl | hr
              · exact ⟨(containerName, report), by simp, hash, h1, hvr⟩
              · obtain ⟨entry, he, hash', hh, hr'⟩ := hall r hr
                exact ⟨entry, List.mem_cons_of_mem _ he, hash', hh, hr'⟩

/-- After a successful run of the write loop every entry of the findings map
has its report stored, and the loop would run the same way up to the creation
again: the hash field exists, the owner reference can be set, and the client
does not fail in transport. -/
theorem writeLoop_ok (s : Store) (workload owner : Object) (containerImages : ContainerImages)
    (reports : List (String × VulnerabilityScanResult)) :
    ∀ c c' : Cluster, s.writeLoop workload owner containerImages c reports = (c', .ok ()) →
      (reports ≠ [] → s.client.createReportErr = none) ∧
      ∀ entry ∈ reports, ∃ hash,
        imageHashField (mapIndex containerImages entry.1) = some hash ∧
        SetOwnerReference s.scheme owner (buildReport workload entry.1 entry.2 hash)
          = .ok (reportFor workload owner entry.1 entry.2 hash) ∧
        reportFor workload owner entry.1 entry.2 hash ∈ c'.reports := by
  induction reports with
  | nil => intro c c' _; exact ⟨fun h => absurd rfl h, by simp⟩
  | cons entry rest ih =>
    intro c c' h
    obtain ⟨containerName, report⟩ := entry
    unfold Store.writeLoop at h
    cases h1 : imageHashField (mapIndex containerImages containerName) with
    | none => rw [h1] at h; simp at h
    | some hash =>
      rw [h1] at h
      simp only at h
      cases h2 : SetOwnerReference s.scheme owner (buildReport workload containerName report hash) with
      | error e => rw [h2] at h; simp at h
      | ok vr =>
        rw [h2] at h
        simp only at h
        have hvr : vr = reportFor workload owner containerName report hash :=
          SetOwnerReference_buildReport _ _ _ _ _ _ _ h2
        cases h3 : s.client.CreateReport c vr with
        | mk c1 res =>
          rw [h3] at h
          cases res with
          | error e => simp at h
          | ok u =>
            cases u
            simp only at h
            obtain ⟨hk, hc1⟩ := CreateReport_ok _ _ _ _ h3
            obtain ⟨_, hall⟩ := ih c1 c' h
            obtain ⟨_, created, hcr, _⟩ := writeLoop_reports s workload owner containerImages rest c1
            rw [h] at hcr
            refine ⟨fun _ => hk, ?_⟩
            intro entry he
            rcases List.mem_cons.mp he with rfl | he
            · refine ⟨hash, h1, by rw [h2, hvr], ?_⟩
              rw [hcr, hc1, ← hvr]
              simp
            · exact hall entry he

theorem getRuntimeObjectFor_ok (s : Store) (c c1 : Cluster) (workload owner : Object)
    (h : s.getRuntimeObjectFor c workload = (c1, .ok owner)) :
    owner = workload ∧ c1 = c.record (.getWorkload workload) ∧
      ∀ c' : Cluster, c.sameWorkloads c' →
        s.getRuntimeObjectFor c' workload = (c'.record (.getWorkload workload), .ok workload) := by
  unfold Store.getRuntimeObjectFor at h
  split at h
  next hkind =>
    unfold Client.GetWorkload at h
    cases he : s.client.getWorkloadErr with
    | some e => rw [he] at h; simp at h
    | none =>
      rw [he] at h
      simp only at h
      cases hw : c.hasWorkload workload with
      | false => rw [hw] at h; simp at h
      | true =>
        rw [hw] at h
        simp only [if_true, Prod.mk.injEq, Res.ok.injEq] at h
        refine ⟨h.2.symm, h.1.symm, ?_⟩
        intro c' hsame
        unfold Store.getRuntimeObjectFor Client.GetWorkload
        rw [if_pos hkind, he, hasWorkload_congr c c' hsame, hw]
        rfl
  next => simp at h

/-- A second `Write` of entries of the same findings map, on the cluster a
successful first `Write` left, stores nothing and fails on the first container
it visits with the name conflict (or succeeds when it visits none). -/
theorem Write_twice (s : Store) (c c1 : Cluster) (workload : Object)
    (reports again : List (String × VulnerabilityScanResult)) (containerImages : ContainerImages)
    (hfirst : s.Write c workload reports containerImages = (c1, .ok ()))
    (hsub : ∀ entry ∈ again, entry ∈ reports) :
    (s.Write c1 workload again containerImages).1.reports = c1.reports ∧
    c1.sameWorkloads (s.Write c1 workload again containerImages).1 ∧
    (s.Write c1 workload again containerImages).2
      = if again = [] then .ok () else .err .alreadyExists := by
  unfold Store.Write at hfirst
  cases hg : s.getRuntimeObjectFor c workload with
  | mk c0 res =>
    rw [hg] at hfirst
    cases res with
    | err e => simp at hfirst
    | panic m => simp at hfirst
    | ok owner =>
      simp only at hfirst
      obtain ⟨hown, hc0, hagain⟩ := getRuntimeObjectFor_ok s c c0 workload owner hg
      subst hown
      obtain ⟨hsame, _⟩ := writeLoop_reports s owner owner containerImages reports c0
      rw [hfirst] at hsame
      have hsame' : c.sameWorkloads c1 := by
        obtain ⟨h1, h2, h3⟩ := hsame
        rw [hc0] at h1 h2 h3
        exact ⟨h1, h2, h3⟩
      obtain ⟨hk, hall⟩ := writeLoop_ok s owner owner containerImages reports c0 c1 hfirst
      unfold Store.Write
      rw [hagain c1 hsame']
      simp only
      cases again with
      | nil => exact ⟨rfl, ⟨rfl, rfl, rfl⟩, rfl⟩
      | cons entry rest =>
        obtain ⟨containerName, report⟩ := entry
        have hmem : (containerName, report) ∈ reports := hsub _ (by simp)
        obtain ⟨hash, h1, h2, h3⟩ := hall (containerName, report) hmem
        have hne : reports ≠ [] := List.ne_nil_of_mem hmem
        have hconf := CreateReport_conflict s.client (c1.record (.getWorkload owner))
          (reportFor owner owner containerName report hash) (hk hne)
          ⟨_, h3, rfl, rfl⟩
        unfold Store.writeLoop
        simp only at h1 h2
        rw [h1]
        simp only
        rw [h2]
        simp only
        rw [hconf]
        exact ⟨rfl, ⟨rfl, rfl, rfl⟩, by simp⟩

theorem getRuntimeObjectFor_reports (s : Store) (c : Cluster) (workload : Object) :
    (s.getRuntimeObjectFor c workload).1.reports = c.reports := by
  unfold Store.getRuntimeObjectFor Client.GetWorkload
  split
  · cases s.client.getWorkloadErr with
    | some e => rfl
    | none =>
      simp only
      cases c.hasWorkload workload <;> rfl
  · rfl

theorem Write_reports (s : Store) (c : Cluster) (workload : Object)
    (reports : List (String × VulnerabilityScanResult)) (containerImages : ContainerImages) :
    ∃ created, (s.Write c workload reports containerImages).1.reports = c.reports ++ created ∧
      ∀ r ∈ created, ∃ entry ∈ reports, ∃ hash,
        imageHashField (mapIndex containerImages entry.1) = some hash ∧
        r = reportFor workload workload entry.1 entry.2 hash := by
  have hrep := getRuntimeObjectFor_reports s c workload
  unfold Store.Write
  cases hg : s.getRuntimeObjectFor c workload with
  | mk c0 res =>
    rw [hg] at hrep
    cases res with
    | err e => exact ⟨[], by simpa using hrep, by simp⟩
    | panic m => exact ⟨[], by simpa using hrep, by simp⟩
    | ok owner =>
      obtain ⟨hown, _, _⟩ := getRuntimeObjectFor_ok s c c0 workload owner hg
      subst hown
      obtain ⟨_, created, hcr, hall⟩ := writeLoop_reports s owner owner containerImages reports c0
      simp only at hrep
      exact ⟨created, by simp only; rw [hcr, hrep], hall⟩

/-! ## Repeated writes and the layout of a record -/

/-- C2 (as stated, refuted): on the cluster left by a successful `Write` of the
findings of container `web`, the same `Write` again returns the already-exists
error of `Create`. -/
theorem Write_second_call_conflict :
    (demoStore.Write demoCluster demoOwner [("web", ⟨["CVE-1"]⟩)] [("web", "nginx aaa")]).2
      = .ok () ∧
    (demoStore.Write
        (demoStore.Write demoCluster demoOwner [("web", ⟨["CVE-1"]⟩)] [("web", "nginx aaa")]).1
        demoOwner [("web", ⟨["CVE-1"]⟩)] [("web", "nginx aaa")]).2
      = .err .alreadyExists := by
  decide

/-- C2 (amended): a second `Write` with the same arguments, the findings map
visited in any order, on the cluster left by a successful first `Write`, leaves
the stored reports (and every other stored object) unchanged, and returns the
already-exists error of the `Create` of the first container it visits; it
returns no error only when the findings map is empty. -/
theorem Write_second_call (s : Store) (c : Cluster) (workload : Object)
    (reports again : List (String × VulnerabilityScanResult)) (containerImages : ContainerImages)
    (hfirst : (s.Write c workload reports containerImages).2 = .ok ())
    (horder : again.Perm reports) :
    (s.Write (s.Write c workload reports containerImages).1 workload again containerImages).1.reports
      = (s.Write c workload reports containerImages).1.reports ∧
    (s.Write c workload reports containerImages).1.sameWorkloads
      (s.Write (s.Write c workload reports containerImages).1 workload again containerImages).1 ∧
    (s.Write (s.Write c workload reports containerImages).1 workload again containerImages).2
      = if reports = [] then .ok () else .err .alreadyExists := by
  have h := Write_twice s c _ workload reports again containerImages (Prod.ext rfl hfirst)
    (fun entry he => horder.subset he)
  have hnil : again = [] ↔ reports = [] := by
    constructor
    · intro e; rw [e] at horder; exact horder.symm.eq_nil
    · intro e; rw [e] at horder; exact horder.eq_nil
  refine ⟨h.1, h.2.1, ?_⟩
  rw [h.2.2]
  by_cases hr : reports = []
  · rw [if_pos hr, if_pos (hnil.mpr hr)]
  · rw [if_neg hr, if_neg (fun e => hr (hnil.mp e))]

/-- C2 (amended), at the ReplicaSet `ns/app-rs` with findings for container `web`. -/
theorem Write_second_call_witness :
    (demoStore.Write demoCluster demoOwner [("web", ⟨["CVE-1"]⟩)] [("web", "nginx aaa")]).2
      = .ok () ∧
    (demoStore.Write
        (demoStore.Write demoCluster demoOwner [("web", ⟨["CVE-1"]⟩)] [("web", "nginx aaa")]).1
        demoOwner [("web", ⟨["CVE-1"]⟩)] [("web", "nginx aaa")]).1.reports
      = (demoStore.Write demoCluster demoOwner [("web", ⟨["CVE-1"]⟩)] [("web", "nginx aaa")]).1.reports :=
  ⟨by decide,
    (Write_second_call demoStore demoCluster demoOwner [("web", ⟨["CVE-1"]⟩)]
      [("web", ⟨["CVE-1"]⟩)] [("web", "nginx aaa")] (by decide) (List.Perm.refl _)).1⟩

/-- C6 (as stated, refuted): for the ReplicaSet `app-rs` with container `web`
at digest `aaa`, `Write` panics on the one-element split and stores no record;
and with the image string `nginx aaa` the annotation is `aaa`, not the value
of the image map. -/
theorem Write_bare_digest_panics :
    (demoStore.Write demoCluster demoOwner [("web", ⟨["CVE-1"]⟩)] [("web", "aaa")]).2
      = .panic "index out of range [1] with length 1" ∧
    (demoStore.Write demoCluster demoOwner [("web", ⟨["CVE-1"]⟩)] [("web", "aaa")]).1.reports
      = [] ∧
    (demoStore.Write demoCluster demoOwner [("web", ⟨["CVE-1"]⟩)]
        [("web", "nginx aaa")]).1.reports.map (fun r => mapGet r.Annotations AnnotationImageHash)
      = [some "aaa"] ∧
    mapIndex [("web", "nginx aaa")] "web" ≠ "aaa" := by
  decide

/-- C6 (amended): every report `Store.Write` creates comes from an entry
`(c, findings)` of the findings map: it is named
`lower(owner.Kind)-owner.Name-c`, lives in the owner's namespace, is labelled
with the owner's kind, name and namespace and with `c`, carries the findings,
is owned by the owner, and its imagehash annotation is the second
space-separated field of `images[c]`.  So the ReplicaSet `app-rs` with
container `web` at image string `nginx aaa` yields exactly one record, named
`replicaset-app-rs-web` and annotated `aaa`. -/
theorem Write_record_layout (s : Store) (c : Cluster) (workload : Object)
    (reports : List (String × VulnerabilityScanResult)) (containerImages : ContainerImages) :
    (∃ created, (s.Write c workload reports containerImages).1.reports = c.reports ++ created ∧
      ∀ r ∈ created, ∃ entry ∈ reports, ∃ hash,
        imageHashField (mapIndex containerImages entry.1) = some hash ∧
        r.Name = ToLower workload.Kind ++ "-" ++ workload.Name ++ "-" ++ entry.1 ∧
        r.Namespace = workload.Namespace ∧
        mapGet r.Labels LabelResourceKind = some workload.Kind ∧
        mapGet r.Labels LabelResourceName = some workload.Name ∧
        mapGet r.Labels LabelResourceNamespace = some workload.Namespace ∧
        mapGet r.Labels LabelContainerName = some entry.1 ∧
        mapGet r.Annotations AnnotationImageHash = some hash ∧
        r.Report = entry.2 ∧
        r.OwnerReferences = [workload]) ∧
    (demoStore.Write demoCluster demoOwner [("web", ⟨["CVE-1"]⟩)] [("web", "nginx aaa")]).1.reports
      = [{ Name := "replicaset-app-rs-web", Namespace := "ns",
           Labels := [(LabelResourceKind, "ReplicaSet"), (LabelResourceName, "app-rs"),
                      (LabelResourceNamespace, "ns"), (LabelContainerName, "web")],
           Annotations := [(AnnotationImageHash, "aaa")],
           OwnerReferences := [demoOwner],
           Report := ⟨["CVE-1"]⟩ }] := by
  refine ⟨?_, by decide⟩
  obtain ⟨created, hcr, hall⟩ := Write_reports s c workload reports containerImages
  refine ⟨created, hcr, ?_⟩
  intro r hr
  obtain ⟨entry, he, hash, hh, hrep⟩ := hall r hr
  refine ⟨entry, he, hash, hh, ?_⟩
  subst hrep
  refine ⟨rfl, rfl, ?_, ?_, ?_, ?_, ?_, rfl, rfl⟩ <;>
    simp [reportFor, buildReport, mapGet, LabelResourceKind, LabelResourceName,
      LabelResourceNamespace, LabelContainerName, AnnotationImageHash]

/-! ## `ensureScanJob` -/

theorem scanJobSelector_eq (owner : Object) (pod : Pod) (hns : pod.Namespace = owner.Namespace) :
    scanJobSelector owner pod = ownerSelector owner := by
  unfold scanJobSelector ownerSelector
  rw [hns]

theorem ListJobs_eq (k : Client) (c : Cluster) (owner : Object) (pod : Pod) (ns : String)
    (hns : pod.Namespace = owner.Namespace) (hlist : k.listJobsErr = none) :
    k.ListJobs c (scanJobSelector owner pod) ns
      = (c.record (.listJobs (ownerSelector owner) ns), .ok (c.scanJobsFor ns owner)) := by
  unfold Client.ListJobs
  rw [hlist, scanJobSelector_eq owner pod hns]
  rfl

/-- With a task listed, `ensureScanJob` lists and does nothing else. -/
theorem ensureScanJob_present (r : PodReconciler) (c : Cluster) (owner : Object) (pod : Pod)
    (hns : pod.Namespace = owner.Namespace) (hlist : r.Client.listJobsErr = none)
    (hsome : c.scanJobsFor r.Config.Namespace owner ≠ []) :
    r.ensureScanJob c owner pod
      = (c.record (.listJobs (ownerSelector owner) r.Config.Namespace), .ok ()) := by
  unfold PodReconciler.ensureScanJob
  rw [ListJobs_eq r.Client c owner pod _ hns hlist]
  simp only
  have : (c.scanJobsFor r.Config.Namespace owner).length > 0 := List.length_pos.mpr hsome
  rw [if_pos this]

/-- With no task listed, `ensureScanJob` builds a Job and returns what `Create`
answers. -/
theorem ensureScanJob_absent (r : PodReconciler) (c : Cluster) (owner : Object) (pod : Pod)
    (scanJob : Job)
    (hns : pod.Namespace = owner.Namespace) (hlist : r.Client.listJobsErr = none)
    (hnone : c.scanJobsFor r.Config.Namespace owner = [])
    (hnew : r.Scanner.NewScanJob owner pod.Status r.scanOptions = .ok scanJob) :
    r.ensureScanJob c owner pod
      = ((r.Client.CreateJob (c.record (.listJobs (ownerSelector owner) r.Config.Namespace))
            scanJob).1,
         Res.ofExcept (r.Client.CreateJob
            (c.record (.listJobs (ownerSelector owner) r.Config.Namespace)) scanJob).2) := by
  unfold PodReconciler.ensureScanJob
  rw [ListJobs_eq r.Client c owner pod _ hns hlist, hnone]
  unfold PodReconciler.scanOptions at hnew
  simp only [List.length_nil, gt_iff_lt, lt_self_iff_false, if_false]
  rw [hnew]
  simp only
  cases hc : r.Client.CreateJob (c.record (.listJobs (ownerSelector owner) r.Config.Namespace))
      scanJob with
  | mk c2 res =>
    cases res with
    | error e => rfl
    | ok u => cases u; rfl

theorem CreateJob_fresh (k : Client) (c : Cluster) (job : Job) (hk : k.createJobErr = none)
    (hfresh : ¬ c.hasJob job.Namespace job.Name) :
    k.CreateJob c job
      = ({ c with jobs := c.jobs ++ [job], calls := c.calls ++ [.createJob job] }, .ok ()) := by
  unfold Client.CreateJob
  rw [hk]
  have : c.jobs.any (fun j => decide (j.Namespace = job.Namespace ∧ j.Name = job.Name)) = false := by
    rw [List.any_eq_false]
    intro j hj hd
    exact hfresh ⟨j, hj, by simpa using hd⟩
  simp only
  rw [this]
  rfl

theorem scanJobsFor_record (c : Cluster) (call : Call) (ns : String) (owner : Object) :
    (c.record call).scanJobsFor ns owner = c.scanJobsFor ns owner := rfl

theorem ensureScanJobTimes_present (r : PodReconciler) (owner : Object) (pod : Pod)
    (hns : pod.Namespace = owner.Namespace) (hlist : r.Client.listJobsErr = none) (n : Nat) :
    ∀ c : Cluster, c.scanJobsFor r.Config.Namespace owner ≠ [] →
      (r.ensureScanJobTimes owner pod n c).1.jobs = c.jobs ∧
      (∀ res ∈ (r.ensureScanJobTimes owner pod n c).2, res = .ok ()) := by
  induction n with
  | zero => intro c _; exact ⟨rfl, by simp [PodReconciler.ensureScanJobTimes]⟩
  | succ n ih =>
    intro c hsome
    unfold PodReconciler.ensureScanJobTimes
    rw [ensureScanJob_present r c owner pod hns hlist hsome]
    simp only
    obtain ⟨h1, h2⟩ := ih (c.record (.listJobs (ownerSelector owner) r.Config.Namespace))
      (by rw [scanJobsFor_record]; exact hsome)
    refine ⟨h1, ?_⟩
    intro res hres
    rcases List.mem_cons.mp hres with rfl | hres
    · rfl
    · exact h2 res hres

theorem CreateJob_conflict_jobs (k : Client) (c c2 : Cluster) (job : Job) (e : Err)
    (h : k.CreateJob c job = (c2, .error e)) : c2 = c.record (.createJob job) := by
  unfold Client.CreateJob at h
  cases hk : k.createJobErr with
  | some e' =>
    rw [hk] at h
    simp only [Prod.mk.injEq] at h
    exact h.1.symm
  | none =>
    rw [hk] at h
    simp only at h
    split at h
    · simp only [Prod.mk.injEq] at h
      exact h.1.symm
    · simp at h

/-! ## Creation of scan tasks -/

/-- C1 (as stated, refuted): no Job labelled for the ReplicaSet `ns/app-rs` is
listed, the name of the new Job is taken, `Create` answers already-exists, and
`ensureScanJob` returns that error. -/
theorem ensureScanJob_conflict_is_error :
    demoClusterNameTaken.scanJobsFor demoOperator.Namespace demoOwner = [] ∧
    (demoPodReconciler.Client.CreateJob
        (demoClusterNameTaken.record
          (.listJobs (scanJobSelector demoOwner demoPod) demoOperator.Namespace))
        demoScanJob).2 = .error .alreadyExists ∧
    (demoPodReconciler.ensureScanJob demoClusterNameTaken demoOwner demoPod).2
      = .err .alreadyExists ∧
    (demoPodReconciler.ensureScanJob demoClusterNameTaken demoOwner demoPod).2 ≠ .ok () := by
  decide

/-- C1 (amended): when no scan Job is listed for the owner, the scanner builds
a Job, and `Create` answers with the already-exists conflict, `ensureScanJob`
returns that conflict as its error, and the stored Jobs are as before. -/
theorem ensureScanJob_conflict (r : PodReconciler) (c c1 c2 : Cluster) (owner : Object) (pod : Pod)
    (scanJob : Job)
    (hlist : r.Client.ListJobs c (scanJobSelector owner pod) r.Config.Namespace = (c1, .ok []))
    (hnew : r.Scanner.NewScanJob owner pod.Status r.scanOptions = .ok scanJob)
    (hcreate : r.Client.CreateJob c1 scanJob = (c2, .error .alreadyExists)) :
    r.ensureScanJob c owner pod = (c2, .err .alreadyExists) ∧ c2.jobs = c.jobs := by
  constructor
  · unfold PodReconciler.ensureScanJob
    unfold PodReconciler.scanOptions at hnew
    rw [hlist]
    simp only [List.length_nil, gt_iff_lt, lt_self_iff_false, if_false]
    rw [hnew]
    simp only
    rw [hcreate]
  · have h2 := CreateJob_conflict_jobs _ _ _ _ _ hcreate
    have h1 : c1 = c.record (.listJobs (scanJobSelector owner pod) r.Config.Namespace) := by
      unfold Client.ListJobs at hlist
      cases hk : r.Client.listJobsErr with
      | some e => rw [hk] at hlist; simp at hlist
      | none =>
        rw [hk] at hlist
        simp only [Prod.mk.injEq] at hlist
        exact hlist.1.symm
    rw [h2, h1]
    rfl

/-- C1 (amended), at the pod `ns/app-7` with the Job name `scan-app-rs` taken. -/
theorem ensureScanJob_conflict_witness :
    (demoPodReconciler.ensureScanJob demoClusterNameTaken demoOwner demoPod).2
      = .err .alreadyExists :=
  congrArg Prod.snd
    (ensureScanJob_conflict demoPodReconciler demoClusterNameTaken
      (demoClusterNameTaken.record
        (.listJobs (scanJobSelector demoOwner demoPod) demoOperator.Namespace))
      ((demoClusterNameTaken.record
        (.listJobs (scanJobSelector demoOwner demoPod) demoOperator.Namespace)).record
        (.createJob demoScanJob))
      demoOwner demoPod demoScanJob (by decide) (by decide) (by decide)).1

/-- C5: for an owner in the pod's namespace, with listing and creation
succeeding and the scanner building a Job of the operator namespace labelled
with the owner: whenever a Job with the owner's labels is listed,
`ensureScanJob` returns success having made the list call only; from a cluster
with no such Job its first call creates the scanner's Job; and after any
`n + 1` calls in sequence exactly that one Job carries the owner's labels. -/
theorem ensureScanJob_sequential (r : PodReconciler) (c : Cluster) (owner : Object) (pod : Pod)
    (scanJob : Job)
    (hns : pod.Namespace = owner.Namespace)
    (hlist : r.Client.listJobsErr = none) (hcreate : r.Client.createJobErr = none)
    (hnew : r.Scanner.NewScanJob owner pod.Status r.scanOptions = .ok scanJob)
    (hjobns : scanJob.Namespace = r.Config.Namespace)
    (hlabels : matchesLabels (ownerSelector owner) scanJob.Labels = true)
    (hnone : c.scanJobsFor r.Config.Namespace owner = [])
    (hfresh : ¬ c.hasJob scanJob.Namespace scanJob.Name) :
    (∀ c' : Cluster, c'.scanJobsFor r.Config.Namespace owner ≠ [] →
      r.ensureScanJob c' owner pod
        = (c'.record (.listJobs (ownerSelector owner) r.Config.Namespace), .ok ())) ∧
    r.ensureScanJob c owner pod
      = ({ c with jobs := c.jobs ++ [scanJob],
                  calls := c.calls ++ [.listJobs (ownerSelector owner) r.Config.Namespace,
                                       .createJob scanJob] }, .ok ()) ∧
    ∀ n : Nat,
      (r.ensureScanJobTimes owner pod (n + 1) c).1.scanJobsFor r.Config.Namespace owner = [scanJob] ∧
      (r.ensureScanJobTimes owner pod (n + 1) c).1.jobs = c.jobs ++ [scanJob] ∧
      ∀ res ∈ (r.ensureScanJobTimes owner pod (n + 1) c).2, res = .ok () := by
  have hfirst : r.ensureScanJob c owner pod
      = ({ c with jobs := c.jobs ++ [scanJob],
                  calls := c.calls ++ [.listJobs (ownerSelector owner) r.Config.Namespace,
                                       .createJob scanJob] }, .ok ()) := by
    rw [ensureScanJob_absent r c owner pod scanJob hns hlist hnone hnew]
    rw [CreateJob_fresh r.Client _ scanJob hcreate (by exact hfresh)]
    simp [Res.ofExcept, Cluster.record]
  refine ⟨fun c' h => ensureScanJob_present r c' owner pod hns hlist h, hfirst, ?_⟩
  intro n
  have hjobs : (r.ensureScanJob c owner pod).1.jobs = c.jobs ++ [scanJob] := by rw [hfirst]
  have hres : (r.ensureScanJob c owner pod).2 = .ok () := by rw [hfirst]
  have hone : (r.ensureScanJob c owner pod).1.scanJobsFor r.Config.Namespace owner
      = [scanJob] := by
    unfold Cluster.scanJobsFor at hnone ⊢
    rw [hjobs]
    simp only [List.filter_append, hnone, List.nil_append]
    simp [List.filter, hjobns, hlabels]
  unfold PodReconciler.ensureScanJobTimes
  simp only
  obtain ⟨h1, h2⟩ := ensureScanJobTimes_present r owner pod hns hlist n
    (r.ensureScanJob c owner pod).1 (by rw [hone]; simp)
  refine ⟨?_, by rw [h1, hjobs], ?_⟩
  · unfold Cluster.scanJobsFor at hone ⊢
    rw [h1]
    exact hone
  · intro res hmem
    rcases List.mem_cons.mp hmem with rfl | hmem
    · exact hres
    · exact h2 res hmem

/-- C5, at the pod `ns/app-7` of the ReplicaSet `ns/app-rs` in a cluster with
no scan Job: after three calls exactly one Job carries the owner's labels. -/
theorem ensureScanJob_sequential_witness :
    (demoPodReconciler.ensureScanJobTimes (GetImmediateOwnerReference demoPod) demoPod 3
        demoClusterWithPod).1.scanJobsFor demoOperator.Namespace demoOwner = [demoScanJob] :=
  ((ensureScanJob_sequential demoPodReconciler demoClusterWithPod
      (GetImmediateOwnerReference demoPod) demoPod demoScanJob
      (by decide) (by decide) (by decide) (by decide) (by decide) (by decide) (by decide)
      (by
        rintro ⟨j, hj, _⟩
        simp [demoClusterWithPod, demoCluster] at hj)).2.2 2).1

theorem GetPod_fst (k : Client) (c : Cluster) (ns name : String) :
    (k.GetPod c ns name).1 = c.record (.getPod ns name) := by
  unfold Client.GetPod
  cases k.getPodErr with
  | some e => rfl
  | none =>
    simp only
    cases c.pods.find? (fun p => decide (p.Namespace = ns ∧ p.Name = name)) <;> rfl

/-! ## A pod without container statuses -/

/-- C10: for an admitted pod (namespace not excluded, not managed by the
operator, not terminating, containers ready) that has no container statuses,
the image map is empty, `HasVulnerabilityReports` on the empty map returns true
leaving the cluster, record of calls included, as it was, and
`PodReconciler.Reconcile` returns success having made the `Get` of the pod as
its only call: it lists no scan Job and creates none. -/
theorem Reconcile_no_container_statuses (s : Store) (r : PodReconciler) (c c1 : Cluster)
    (req : NamespacedName) (pod : Pod) (installMode : InstallMode)
    (hstore : r.Store = s.toInterface)
    (hmode : r.Config.GetInstallMode = .ok installMode)
    (hkeep : r.IgnorePodInOperatorNamespace installMode req = false)
    (hget : r.Client.GetPod c req.Namespace req.Name = (c1, .ok pod))
    (hmanaged : IsPodManagedByStarboardOperator pod = false)
    (hlive : pod.DeletionTimestamp = none)
    (hready : HasContainersReadyCondition pod = true)
    (hempty : pod.Status.ContainerStatuses = []) :
    GetContainerImagesFromPodStatus pod.Status = [] ∧
    (∀ (c' : Cluster) (owner : Object), s.HasVulnerabilityReports owner c' [] = (c', .ok true)) ∧
    r.Reconcile c req = (c.record (.getPod req.Namespace req.Name), .ok ()) := by
  have himages : GetContainerImagesFromPodStatus pod.Status = [] := by
    unfold GetContainerImagesFromPodStatus
    rw [hempty]
    rfl
  have hhas : ∀ (c' : Cluster) (owner : Object),
      s.HasVulnerabilityReports owner c' [] = (c', .ok true) := by
    intro c' owner
    rfl
  refine ⟨himages, hhas, ?_⟩
  have hc1 : c1 = c.record (.getPod req.Namespace req.Name) := by
    have := GetPod_fst r.Client c req.Namespace req.Name
    rw [hget] at this
    exact this
  unfold PodReconciler.Reconcile
  rw [hmode]
  simp only [hkeep, Bool.false_eq_true, if_false]
  rw [hget]
  simp only [hmanaged, Bool.false_eq_true, if_false, hlive, Option.isSome_none, hready,
    Bool.not_true, himages, hstore]
  simp only [Store.toInterface, hhas, if_true]
  rw [hc1]

/-- C10, at the pod `ns/app-7` with no container statuses: the reconciler
returns success and the only call on record is the `Get` of the pod. -/
theorem Reconcile_no_container_statuses_witness :
    demoPodReconciler.Reconcile demoClusterNoStatuses { Namespace := "ns", Name := "app-7" }
      = ({ demoClusterNoStatuses with calls := [.getPod "ns" "app-7"] }, .ok ()) :=
  (Reconcile_no_container_statuses demoStore demoPodReconciler demoClusterNoStatuses
    (demoClusterNoStatuses.record (.getPod "ns" "app-7"))
    { Namespace := "ns", Name := "app-7" } demoPodNoStatuses InstallModeSingleNamespace
    rfl rfl (by decide) (by decide) (by decide) rfl (by decide) rfl).2.2

/-! ## `processCompleteScanJob` -/

theorem harvest_none (r : JobReconciler) (pod : Pod) (containerImages : ContainerImages)
    (containers : List String) :
    ∀ acc : List (String × VulnerabilityScanResult),
      (∃ container ∈ containers, r.containerFails pod containerImages container) →
      r.harvest pod containerImages acc containers = none := by
  induction containers with
  | nil => intro acc h; simp at h
  | cons hd tl ih =>
    intro acc h
    unfold JobReconciler.harvest
    cases hl : r.LogsReader pod.Namespace pod.Name hd with
    | error e => rfl
    | ok logs =>
      simp only
      cases hp : r.Scanner.ParseVulnerabilityReport
          ((Split (mapIndex containerImages hd) ' ').headD "") logs with
      | error e => rfl
      | ok report =>
        simp only
        apply ih
        obtain ⟨container, hmem, hfail⟩ := h
        rcases List.mem_cons.mp hmem with rfl | hmem
        · exfalso
          rcases hfail with ⟨e, he⟩ | ⟨logs', e, h1, h2⟩
          · rw [hl] at he; cases he
          · rw [hl] at h1
            cases h1
            rw [hp] at h2
            cases h2
        · exact ⟨container, hmem, hfail⟩

theorem DeleteJob_reports (k : Client) (c : Cluster) (job : Job) :
    (k.DeleteJob c job).1.reports = c.reports := by
  unfold Client.DeleteJob
  cases k.deleteJobErr with
  | some e => rfl
  | none =>
    simp only
    split <;> rfl

theorem DeleteJob_calls (k : Client) (c : Cluster) (job : Job) :
    (k.DeleteJob c job).1.calls = c.calls ++ [.deleteJob job.Namespace job.Name] := by
  unfold Client.DeleteJob
  cases k.deleteJobErr with
  | some e => rfl
  | none =>
    simp only
    split <;> rfl

theorem DeleteJob_absent (k : Client) (c : Cluster) (job : Job) (hk : k.deleteJobErr = none) :
    ¬ (k.DeleteJob c job).1.hasJob job.Namespace job.Name := by
  unfold Client.DeleteJob
  rw [hk]
  simp only
  split
  · rintro ⟨j, hj, h1, h2⟩
    simp only [Cluster.record, List.mem_filter] at hj
    simp [h1, h2] at hj
  next hany =>
    rintro ⟨j, hj, h1, h2⟩
    apply hany
    rw [List.any_eq_true]
    exact ⟨j, hj, by simp [h1, h2]⟩

/-- When the harvest of one container fails, the handler goes from the pod
lookup straight to `Delete`. -/
theorem processCompleteScanJob_abort (r : JobReconciler) (c c1 c2 : Cluster) (scanJob : Job)
    (workload : Object) (containerImages : ContainerImages) (pod : Pod)
    (hworkload : r.ObjectFromLabelsSet scanJob.Labels = .ok workload)
    (himages : GetContainerImagesFromJob r.FromJSON scanJob = .ok containerImages)
    (hreports : r.Store.HasVulnerabilityReports c workload containerImages = (c1, .ok false))
    (hpod : r.GetPodControlledBy c1 scanJob = (c2, .ok pod))
    (hfail : ∃ container ∈ pod.Containers, r.containerFails pod containerImages container) :
    r.processCompleteScanJob c scanJob = deleteResult (r.Client.DeleteJob c2 scanJob) := by
  unfold JobReconciler.processCompleteScanJob
  rw [hworkload]
  simp only
  rw [himages]
  simp only
  rw [hreports]
  simp only [Bool.false_eq_true, if_false]
  rw [hpod]
  simp only
  rw [harvest_none r pod containerImages pod.Containers [] hfail]

theorem DeleteJob_result (k : Client) (c : Cluster) (job : Job) (hk : k.deleteJobErr = none) :
    (k.DeleteJob c job).2 = .ok () ∨ (k.DeleteJob c job).2 = .error .notFound := by
  unfold Client.DeleteJob
  rw [hk]
  simp only
  split
  · exact Or.inl rfl
  · exact Or.inr rfl

/-- A handler that ends in `Delete` leaves no Job of that key, and returns
success or the not-found answer of `Delete`. -/
theorem deleteResult_disposes (k : Client) (c : Cluster) (job : Job) (hk : k.deleteJobErr = none) :
    ¬ (deleteResult (k.DeleteJob c job)).1.hasJob job.Namespace job.Name ∧
      ((deleteResult (k.DeleteJob c job)).2 = .ok () ∨
        (deleteResult (k.DeleteJob c job)).2 = .err .notFound) := by
  refine ⟨DeleteJob_absent k c job hk, ?_⟩
  unfold deleteResult
  rcases DeleteJob_result k c job hk with h | h
  · left; simp only; rw [h]; rfl
  · right; simp only; rw [h]; rfl

theorem GetPodControlledBy_no_panic (r : JobReconciler) (c : Cluster) (job : Job)
    (matchLabels : LabelSet) (hselector : job.Selector = some matchLabels) (m : String) :
    (r.GetPodControlledBy c job).2 ≠ .panic m := by
  unfold JobReconciler.GetPodControlledBy
  rw [hselector]
  simp only
  cases mapGet matchLabels "controller-uid" with
  | none => simp
  | some uid =>
    simp only
    cases hl : r.Client.ListPods c [("controller-uid", uid)] with
    | mk c1 res =>
      cases res with
      | error e => simp
      | ok podList =>
        simp only
        split <;> simp

theorem GetJob_key (k : Client) (c c1 : Cluster) (ns name : String) (job : Job)
    (h : k.GetJob c ns name = (c1, .ok job)) : job.Namespace = ns ∧ job.Name = name := by
  unfold Client.GetJob at h
  cases hk : k.getJobErr with
  | some e => rw [hk] at h; simp at h
  | none =>
    rw [hk] at h
    simp only at h
    cases hf : c.jobs.find? (fun j => decide (j.Namespace = ns ∧ j.Name = name)) with
    | none => rw [hf] at h; simp at h
    | some j =>
      rw [hf] at h
      simp only [Prod.mk.injEq, Except.ok.injEq] at h
      have := List.find?_some hf
      rw [h.2] at this
      simpa using this

theorem processCompleteScanJob_disposes (r : JobReconciler) (c c1 : Cluster) (job : Job)
    (workload : Object) (containerImages : ContainerImages) (covered : Bool)
    (matchLabels : LabelSet)
    (hdelete : r.Client.deleteJobErr = none)
    (hselector : job.Selector = some matchLabels)
    (hworkload : r.ObjectFromLabelsSet job.Labels = .ok workload)
    (himages : GetContainerImagesFromJob r.FromJSON job = .ok containerImages)
    (hreports : r.Store.HasVulnerabilityReports c workload containerImages = (c1, .ok covered))
    (hwrite : ∀ (c2 : Cluster) (pod : Pod) (findings : List (String × VulnerabilityScanResult))
      (m : String), r.GetPodControlledBy c1 job = (c2, .ok pod) →
      r.harvest pod containerImages [] pod.Containers = some findings →
      (r.Store.Write c2 workload (r.Range.visit findings) containerImages).2 ≠ .panic m) :
    ¬ (r.processCompleteScanJob c job).1.hasJob job.Namespace job.Name ∧
      ((r.processCompleteScanJob c job).2 = .ok () ∨
        (r.processCompleteScanJob c job).2 = .err .notFound) := by
  unfold JobReconciler.processCompleteScanJob
  rw [hworkload]
  simp only
  rw [himages]
  simp only
  rw [hreports]
  simp only
  cases covered with
  | true => exact deleteResult_disposes r.Client c1 job hdelete
  | false =>
    simp only [Bool.false_eq_true, if_false]
    cases hp : r.GetPodControlledBy c1 job with
    | mk c2 res =>
      cases res with
      | err e => exact deleteResult_disposes r.Client c2 job hdelete
      | panic m =>
        exfalso
        have := GetPodControlledBy_no_panic r c1 job matchLabels hselector m
        rw [hp] at this
        exact this rfl
      | ok pod =>
        simp only
        cases hh : r.harvest pod containerImages [] pod.Containers with
        | none => exact deleteResult_disposes r.Client c2 job hdelete
        | some findings =>
          simp only
          cases hw : r.Store.Write c2 workload (r.Range.visit findings) containerImages with
          | mk c3 res =>
            cases res with
            | panic m =>
              exfalso
              have := hwrite c2 pod findings m hp hh
              rw [hw] at this
              exact this rfl
            | ok u => exact deleteResult_disposes r.Client c3 job hdelete
            | err e => exact deleteResult_disposes r.Client c3 job hdelete

/-! ## Harvest and disposal of a finished task -/

/-- C7: for a Complete scan Job whose owner and images resolve, whose reports do
not exist yet and whose controlled pod resolves, if reading the logs or parsing
the findings of one container of the pod fails, `processCompleteScanJob` calls
`Delete` on the Job right after the pod lookup and returns its answer.  It does
so whatever `Store.Write` is, which it therefore never calls; the stored
reports are those before the call; the call recorded last is the `Delete`; and
when `Delete` does not fail in transport the Job is gone. -/
theorem processCompleteScanJob_harvest_failure (r : JobReconciler) (c c1 c2 : Cluster)
    (scanJob : Job) (workload : Object) (containerImages : ContainerImages) (pod : Pod)
    (hworkload : r.ObjectFromLabelsSet scanJob.Labels = .ok workload)
    (himages : GetContainerImagesFromJob r.FromJSON scanJob = .ok containerImages)
    (hreports : r.Store.HasVulnerabilityReports c workload containerImages = (c1, .ok false))
    (hpod : r.GetPodControlledBy c1 scanJob = (c2, .ok pod))
    (hfail : ∃ container ∈ pod.Containers, r.containerFails pod containerImages container) :
    r.processCompleteScanJob c scanJob = deleteResult (r.Client.DeleteJob c2 scanJob) ∧
    (∀ write, JobReconciler.processCompleteScanJob
        { r with Store := { r.Store with Write := write } } c scanJob
      = deleteResult (r.Client.DeleteJob c2 scanJob)) ∧
    (r.processCompleteScanJob c scanJob).1.reports = c2.reports ∧
    (r.processCompleteScanJob c scanJob).1.calls
      = c2.calls ++ [.deleteJob scanJob.Namespace scanJob.Name] ∧
    (r.Client.deleteJobErr = none →
      ¬ (r.processCompleteScanJob c scanJob).1.hasJob scanJob.Namespace scanJob.Name) := by
  have h := processCompleteScanJob_abort r c c1 c2 scanJob workload containerImages pod
    hworkload himages hreports hpod hfail
  refine ⟨h, ?_, ?_, ?_, ?_⟩
  · intro write
    exact processCompleteScanJob_abort { r with Store := { r.Store with Write := write } }
      c c1 c2 scanJob workload containerImages pod hworkload himages hreports hpod hfail
  · rw [h]
    exact DeleteJob_reports r.Client c2 scanJob
  · rw [h]
    exact DeleteJob_calls r.Client c2 scanJob
  · intro hk
    rw [h]
    exact DeleteJob_absent r.Client c2 scanJob hk

/-- C7, at a Complete scan Job whose pod has the containers `web` and `sidecar`,
the logs of `sidecar` being unreadable: no report is stored and the Job is
deleted. -/
theorem processCompleteScanJob_harvest_failure_witness :
    (demoJobReconciler.processCompleteScanJob
        (demoClusterWithJob JobComplete [demoScanPod ["web", "sidecar"]])
        (demoFinishedJob JobComplete)).1.reports = [] ∧
    (demoJobReconciler.processCompleteScanJob
        (demoClusterWithJob JobComplete [demoScanPod ["web", "sidecar"]])
        (demoFinishedJob JobComplete)).1.jobs = [] :=
  ⟨(processCompleteScanJob_harvest_failure demoJobReconciler
      (demoClusterWithJob JobComplete [demoScanPod ["web", "sidecar"]])
      ((demoClusterWithJob JobComplete [demoScanPod ["web", "sidecar"]]).record (.listReports "ns"))
      (((demoClusterWithJob JobComplete [demoScanPod ["web", "sidecar"]]).record
        (.listReports "ns")).record (.listPods [("controller-uid", "uid-1")]))
      (demoFinishedJob JobComplete) demoOwner [("web", "nginx aaa")]
      (demoScanPod ["web", "sidecar"])
      (by decide) (by decide) (by decide) (by decide)
      ⟨"sidecar", by decide, Or.inl ⟨_, rfl⟩⟩).2.2.1,
   by decide⟩

/-- C4 (as stated, refuted): a Failed scan Job with no controlled pod, and a
Complete scan Job without its images annotation, are both still stored after
`JobReconciler.Reconcile`, which returns an error without calling `Delete`. -/
theorem Reconcile_keeps_task_on_error :
    ((demoJobReconciler.Reconcile (demoClusterWithJob JobFailed []) demoJobKey).2
        = .err (.msg "expected 1 Pod, but got 0") ∧
      (demoJobReconciler.Reconcile (demoClusterWithJob JobFailed []) demoJobKey).1.hasJob
        "starboard-operator" "scan-app-rs" ∧
      Call.deleteJob "starboard-operator" "scan-app-rs" ∉
        (demoJobReconciler.Reconcile (demoClusterWithJob JobFailed []) demoJobKey).1.calls) ∧
    ((demoJobReconciler.Reconcile demoClusterNoAnnotation demoJobKey).2
        = .err (.wrap "getting container images"
            (.msg "job does not have required annotation: starboard.container-images")) ∧
      (demoJobReconciler.Reconcile demoClusterNoAnnotation demoJobKey).1.hasJob
        "starboard-operator" "scan-app-rs" ∧
      Call.deleteJob "starboard-operator" "scan-app-rs" ∉
        (demoJobReconciler.Reconcile demoClusterNoAnnotation demoJobKey).1.calls) := by
  decide

/-- C4 (amended): for a scan Job of the operator namespace, with `Delete` not
failing in transport: if its first condition is Complete, its owner and images
resolve, `HasVulnerabilityReports` returns without error, its selector is set,
and `Store.Write` does not panic on the harvested findings in the order it
visits them, then after `JobReconciler.Reconcile` the Job is no longer stored,
whatever the outcome of pod resolution, log reading, parsing and report
writing; if its first condition is Failed and its controlled pod resolves, the
Job is no longer stored either. -/
theorem Reconcile_disposes_task (r : JobReconciler) (c c1 : Cluster) (req : NamespacedName)
    (job : Job) (condition : String) (others : List String)
    (hns : req.Namespace = r.Config.Namespace)
    (hget : r.Client.GetJob c req.Namespace req.Name = (c1, .ok job))
    (hcond : job.Conditions = condition :: others)
    (hdelete : r.Client.deleteJobErr = none)
    (hcase :
      (condition = JobComplete ∧
        ∃ (workload : Object) (containerImages : ContainerImages) (c2 : Cluster) (covered : Bool)
          (matchLabels : LabelSet),
          r.ObjectFromLabelsSet job.Labels = .ok workload ∧
          GetContainerImagesFromJob r.FromJSON job = .ok containerImages ∧
          r.Store.HasVulnerabilityReports c1 workload containerImages = (c2, .ok covered) ∧
          job.Selector = some matchLabels ∧
          ∀ (c3 : Cluster) (pod : Pod) (findings : List (String × VulnerabilityScanResult))
            (m : String), r.GetPodControlledBy c2 job = (c3, .ok pod) →
            r.harvest pod containerImages [] pod.Containers = some findings →
            (r.Store.Write c3 workload (r.Range.visit findings) containerImages).2 ≠ .panic m) ∨
      (condition = JobFailed ∧
        ∃ (c2 : Cluster) (pod : Pod), r.GetPodControlledBy c1 job = (c2, .ok pod))) :
    job.Namespace = req.Namespace ∧ job.Name = req.Name ∧
    ¬ (r.Reconcile c req).1.hasJob req.Namespace req.Name ∧
    ((r.Reconcile c req).2 = .ok () ∨ (r.Reconcile c req).2 = .err .notFound) := by
  obtain ⟨hkns, hkname⟩ := GetJob_key r.Client c c1 req.Namespace req.Name job hget
  refine ⟨hkns, hkname, ?_⟩
  rw [← hkns, ← hkname]
  unfold JobReconciler.Reconcile
  rw [if_neg (by simp [hns])]
  rw [hget]
  simp only
  rw [hcond]
  simp only
  rcases hcase with ⟨hc, workload, containerImages, c2, covered, matchLabels, h1, h2, h3, h4, h5⟩ |
    ⟨hc, c2, pod, h1⟩
  · rw [if_pos hc]
    exact processCompleteScanJob_disposes r c1 c2 job workload containerImages covered
      matchLabels hdelete h4 h1 h2 h3 h5
  · have hne : condition ≠ JobComplete := by
      rw [hc]
      decide
    rw [if_neg hne, if_pos hc]
    unfold JobReconciler.processFailedScanJob
    rw [h1]
    exact deleteResult_disposes r.Client c2 job hdelete

/-- C4 (amended), at a Complete scan Job whose pod has the one container `web`:
the report is written, and the Job is gone. -/
theorem Reconcile_disposes_task_witness :
    ¬ (demoJobReconciler.Reconcile (demoClusterWithJob JobComplete [demoScanPod ["web"]])
        demoJobKey).1.hasJob "starboard-operator" "scan-app-rs" ∧
    (demoJobReconciler.Reconcile (demoClusterWithJob JobComplete [demoScanPod ["web"]])
        demoJobKey).1.reports.map (fun report => report.Name) = ["replicaset-app-rs-web"] :=
  ⟨(Reconcile_disposes_task demoJobReconciler
      (demoClusterWithJob JobComplete [demoScanPod ["web"]])
      ((demoClusterWithJob JobComplete [demoScanPod ["web"]]).record
        (.getJob "starboard-operator" "scan-app-rs"))
      demoJobKey (demoFinishedJob JobComplete) JobComplete []
      rfl (by decide) rfl rfl
      (Or.inl ⟨rfl, demoOwner, [("web", "nginx aaa")],
        ((demoClusterWithJob JobComplete [demoScanPod ["web"]]).record
          (.getJob "starboard-operator" "scan-app-rs")).record (.listReports "ns"),
        false, [("controller-uid", "uid-1")], by decide, by decide, by decide, rfl, by
          intro c3 pod findings m h1 h2
          have e1 : demoJobReconciler.GetPodControlledBy
              (((demoClusterWithJob JobComplete [demoScanPod ["web"]]).record
                (.getJob "starboard-operator" "scan-app-rs")).record (.listReports "ns"))
              (demoFinishedJob JobComplete)
              = ((((demoClusterWithJob JobComplete [demoScanPod ["web"]]).record
                  (.getJob "starboard-operator" "scan-app-rs")).record
                  (.listReports "ns")).record (.listPods [("controller-uid", "uid-1")]),
                 .ok (demoScanPod ["web"])) := by decide
          rw [e1] at h1
          cases h1
          have e2 : demoJobReconciler.harvest (demoScanPod ["web"]) [("web", "nginx aaa")] []
              (demoScanPod ["web"]).Containers = some [("web", ⟨["CVE-1"]⟩)] := by decide
          rw [e2] at h2
          cases h2
          have e3 : (demoJobReconciler.Store.Write
              ((((demoClusterWithJob JobComplete [demoScanPod ["web"]]).record
                  (.getJob "starboard-operator" "scan-app-rs")).record
                  (.listReports "ns")).record (.listPods [("controller-uid", "uid-1")]))
              demoOwner (demoJobReconciler.Range.visit [("web", ⟨["CVE-1"]⟩)])
              [("web", "nginx aaa")]).2 = .ok () := by decide
          rw [e3]
          intro h
          cases h⟩)).2.2.1,
   by decide⟩

/-- The order in which `Store.Write` visits the harvested findings decides the
fate of a Complete scan Job: with a stale report under the name of container
`web` and no image recorded for container `sidecar`, visiting `web` first ends
in the name conflict and the Job is deleted, while visiting `sidecar` first
panics on the missing hash field and the Job stays. -/
theorem Reconcile_order_of_findings :
    ((demoJobReconcilerWithOrder insertionOrder).Reconcile demoClusterStale demoJobKey).2
      = .ok () ∧
    ¬ ((demoJobReconcilerWithOrder insertionOrder).Reconcile demoClusterStale
        demoJobKey).1.hasJob "starboard-operator" "scan-app-rs" ∧
    ((demoJobReconcilerWithOrder reverseOrder).Reconcile demoClusterStale demoJobKey).2
      = .panic "index out of range [1] with length 1" ∧
    ((demoJobReconcilerWithOrder reverseOrder).Reconcile demoClusterStale
        demoJobKey).1.hasJob "starboard-operator" "scan-app-rs" := by
  decide

/-- A Complete scan Job whose `Spec.Selector` is nil, its reports not yet
stored: the pod lookup dereferences the nil pointer, `Reconcile` panics and the
Job stays. -/
theorem Reconcile_nil_selector :
    (demoJobReconciler.Reconcile
        { demoCluster with jobs := [{ demoFinishedJob JobComplete with Selector := none }] }
        demoJobKey).2 = .panic "invalid memory address or nil pointer dereference" ∧
    (demoJobReconciler.Reconcile
        { demoCluster with jobs := [{ demoFinishedJob JobComplete with Selector := none }] }
        demoJobKey).1.hasJob "starboard-operator" "scan-app-rs" := by
  decide

/-! ## When `Store.Read` indexes out of range -/

theorem readLoop_no_field (image : String) (h : imageHashField image = none)
    (items : List VulnerabilityReport)
    (hex : ∃ item ∈ items, ∃ v, mapGet item.Annotations AnnotationImageHash = some v) :
    Store.readLoop image items = .panic "index out of range [1] with length 1" := by
  induction items with
  | nil => simp at hex
  | cons item rest ih =>
    unfold Store.readLoop
    cases ha : mapGet item.Annotations AnnotationImageHash with
    | none =>
      simp only
      apply ih
      obtain ⟨it, hit, v, hv⟩ := hex
      rcases List.mem_cons.mp hit with rfl | hit
      · rw [ha] at hv; cases hv
      · exact ⟨it, hit, v, hv⟩
    | some containerHash => simp only [h]

theorem readLoop_unannotated (image : String) (items : List VulnerabilityReport)
    (hex : ¬ ∃ item ∈ items, ∃ v, mapGet item.Annotations AnnotationImageHash = some v) :
    Store.readLoop image items = .ok none := by
  induction items with
  | nil => rfl
  | cons item rest ih =>
    unfold Store.readLoop
    cases ha : mapGet item.Annotations AnnotationImageHash with
    | none =>
      simp only
      exact ih (fun ⟨it, hit, v, hv⟩ => hex ⟨it, List.mem_cons_of_mem _ hit, v, hv⟩)
    | some containerHash => exact absurd ⟨item, by simp, containerHash, ha⟩ hex

theorem readLoop_field (image hash : String) (h : imageHashField image = some hash)
    (items : List VulnerabilityReport) :
    Store.readLoop image items = .ok none ∨
      ∃ item ∈ items, mapGet item.Annotations AnnotationImageHash = some hash ∧
        Store.readLoop image items = .ok (some item.Report) := by
  induction items with
  | nil => exact Or.inl rfl
  | cons item rest ih =>
    have step : Store.readLoop image rest = .ok none ∨
        ∃ it ∈ item :: rest, mapGet it.Annotations AnnotationImageHash = some hash ∧
          Store.readLoop image rest = .ok (some it.Report) := by
      rcases ih with h1 | ⟨it, hit, h1, h2⟩
      · exact Or.inl h1
      · exact Or.inr ⟨it, List.mem_cons_of_mem _ hit, h1, h2⟩
    unfold Store.readLoop
    cases ha : mapGet item.Annotations AnnotationImageHash with
    | none => simpa using step
    | some containerHash =>
      simp only [h]
      by_cases heq : containerHash = hash
      · right
        exact ⟨item, by simp, by rw [ha, heq], by simp [heq]⟩
      · simp only [heq, if_false]
        exact step

theorem mem_filter_annotated (c : Cluster) (ns : String) :
    (∃ item ∈ c.reports.filter (fun r => decide (r.Namespace = ns)),
      ∃ v, mapGet item.Annotations AnnotationImageHash = some v) ↔
    ∃ report ∈ c.reports, report.Namespace = ns ∧
      ∃ v, mapGet report.Annotations AnnotationImageHash = some v := by
  constructor
  · rintro ⟨item, hmem, hv⟩
    rw [List.mem_filter] at hmem
    exact ⟨item, hmem.1, by simpa using hmem.2, hv⟩
  · rintro ⟨item, hmem, hns, hv⟩
    exact ⟨item, List.mem_filter.mpr ⟨hmem, by simpa using hns⟩, hv⟩

theorem Store.Read_list_error (s : Store) (c : Cluster) (workload : Object) (image : String)
    (e : Err) (hlist : s.client.listReportsErr = some e) :
    (s.Read c workload image).2 = .err e := by
  unfold Store.Read Client.ListReports
  rw [hlist]

/-- C11: `Store.Read` panics on the index of element 1 of the space-split
image hash exactly when the list of reports succeeds, the image hash holds no
space, and some listed report (one of the workload's namespace) carries the
imagehash annotation.  In every case the outcome is that panic, no report,
the payload of a listed report, or the error of the list; so with a hash that
holds a space, with no annotated report in the namespace, or with a failed
list, `Read` returns normally.  For instance the bare digest `aaa` panics once
an annotated report is stored, `nginx aaa` then returns that report, and the
bare digest returns no report while none is stored. -/
theorem Read_out_of_range_iff (s : Store) (c : Cluster) (workload : Object)
    (containerImageHash : String) :
    ((∃ m, (s.Read c workload containerImageHash).2 = .panic m) ↔
      s.client.listReportsErr = none ∧ ' ' ∉ containerImageHash.data ∧
      ∃ report ∈ c.reports, report.Namespace = workload.Namespace ∧
        ∃ v, mapGet report.Annotations AnnotationImageHash = some v) ∧
    ((s.Read c workload containerImageHash).2 = .panic "index out of range [1] with length 1" ∨
      (s.Read c workload containerImageHash).2 = .ok none ∨
      (∃ report ∈ c.reports, report.Namespace = workload.Namespace ∧
        (s.Read c workload containerImageHash).2 = .ok (some report.Report)) ∨
      (∃ e, s.client.listReportsErr = some e ∧
        (s.Read c workload containerImageHash).2 = .err e)) ∧
    ((demoStore.Read demoClusterWithReport demoOwner "aaa").2
        = .panic "index out of range [1] with length 1" ∧
      (demoStore.Read demoClusterWithReport demoOwner "nginx aaa").2
        = .ok (some demoReport.Report) ∧
      (demoStore.Read demoCluster demoOwner "aaa").2 = .ok none) := by
  refine ⟨?_, ?_, by decide⟩
  · cases hlist : s.client.listReportsErr with
    | some e =>
      rw [Store.Read_list_error s c workload containerImageHash e hlist]
      constructor
      · rintro ⟨m, hm⟩
        cases hm
      · rintro ⟨h, _⟩
        cases h
    | none =>
      rw [Store.Read_snd s c workload containerImageHash hlist]
      cases hfield : imageHashField containerImageHash with
      | none =>
        have hspace := (imageHashField_eq_none_iff containerImageHash).mp hfield
        constructor
        · rintro ⟨m, hm⟩
          refine ⟨rfl, hspace, ?_⟩
          by_contra hno
          have hnone := readLoop_unannotated containerImageHash
            (c.reports.filter (fun r => decide (r.Namespace = workload.Namespace)))
            (fun hx => hno ((mem_filter_annotated c workload.Namespace).mp hx))
          rw [hnone] at hm
          cases hm
        · rintro ⟨_, _, hex⟩
          exact ⟨_, readLoop_no_field containerImageHash hfield _
            ((mem_filter_annotated c workload.Namespace).mpr hex)⟩
      | some hash =>
        have hspace : ' ' ∈ containerImageHash.data :=
          (imageHashField_isSome_iff containerImageHash).mp ⟨hash, hfield⟩
        constructor
        · rintro ⟨m, hm⟩
          rcases readLoop_field containerImageHash hash hfield
            (c.reports.filter (fun r => decide (r.Namespace = workload.Namespace)))
            with h1 | ⟨item, _, _, h1⟩
          · rw [h1] at hm; cases hm
          · rw [h1] at hm; cases hm
        · rintro ⟨_, hno, _⟩
          exact absurd hspace hno
  · cases hlist : s.client.listReportsErr with
    | some e =>
      right; right; right
      exact ⟨e, rfl, Store.Read_list_error s c workload containerImageHash e hlist⟩
    | none =>
      rw [Store.Read_snd s c workload containerImageHash hlist]
      cases hfield : imageHashField containerImageHash with
      | none =>
        by_cases hex : ∃ item ∈ c.reports.filter
            (fun r => decide (r.Namespace = workload.Namespace)),
            ∃ v, mapGet item.Annotations AnnotationImageHash = some v
        · exact Or.inl (readLoop_no_field containerImageHash hfield _ hex)
        · exact Or.inr (Or.inl (readLoop_unannotated containerImageHash _ hex))
      | some hash =>
        rcases readLoop_field containerImageHash hash hfield
          (c.reports.filter (fun r => decide (r.Namespace = workload.Namespace)))
          with h1 | ⟨item, hmem, _, h1⟩
        · exact Or.inr (Or.inl h1)
        · rw [List.mem_filter] at hmem
          exact Or.inr (Or.inr (Or.inl ⟨item, hmem.1, by simpa using hmem.2, h1⟩))

end Starboard
